import Mathlib

set_option maxRecDepth 100000

/-!
Shallow embedding of the image-stretching core (the `imageStretching`
TypeScript module): pixel buffers, index-list generation, gradient
interpolation, the stretch builder, cropping, rotation, and the
`stretchImage` orchestrator, together with proofs of the specified
properties of these functions.

Modelling conventions:
* `Uint8ClampedArray` contents are byte lists (`List Nat`).  Reading a
  missing index yields `undefined` in JS, which stores as `0` when written
  into a typed array, so out-of-range reads are modelled by `List.getD _ _ 0`;
  writing past the end of a typed array is a no-op, matching `List.set`.
* JS `number`s are IEEE-754 binary64 doubles.  The float products of
  `createIndexList` are exact at their magnitudes, so `Math.floor` of them
  is `Nat` division.  The interpolation of `createGradient` is not exact:
  its division, multiplication and addition each round, so it is modelled
  by an exact binary64 evaluator (`F64`, a dyadic `mant * 2 ^ exp` with a
  53-bit significand and round-to-nearest-ties-to-even; the byte and length
  magnitudes stay far from the subnormal and overflow ranges, so the
  exponent is unbounded).  `Math.round x = ⌊x + 1/2⌋` on the exact value of
  the double `x`.
* The `for` loop of `buildNewImage` advances `sourceRow` strictly towards
  `height - 1`, so running its recursion with `height` as fuel never cuts
  the loop short.
-/

/-- A raster buffer: RGBA bytes in row-major order, top row first.  Models
both the DOM `ImageData` and the module's `StretchedImageData` (they carry
the same `(data, width, height)` fields). -/
@[ext] structure PixelBuffer where
  data : List Nat
  width : Nat
  height : Nat
deriving Repr, DecidableEq

/-- The four stretch directions of `StretchParams.direction`. -/
inductive Direction where
  | up | down | left | right
deriving Repr, DecidableEq

/-- Parameters of `stretchImage` (`StretchParams` in the source). -/
structure StretchParams where
  stretchRate : Nat
  startingPixel : Nat
  direction : Direction
deriving Repr, DecidableEq

/-- The `inverseValueDict` lookup table inside `createIndexList`; keys
outside `[1, 13]` are absent (`undefined` in JS).  The table's values
`1, 1.25, 1.5, …, 4` are quarter-integers, stored here as four times the
value so that the table stays in `ℕ`. -/
def inverseValueDict : Nat → Option Nat
  | 13 => some 4 | 12 => some 5 | 11 => some 6 | 10 => some 7
  | 9 => some 8 | 8 => some 9 | 7 => some 10 | 6 => some 11
  | 5 => some 12 | 4 => some 13 | 3 => some 14 | 2 => some 15
  | 1 => some 16
  | _ => none

/-- The base `(value, count)` table of `createIndexList` (the source mutates
`pair[1]` in place; here the scaled count is computed where the pair is
expanded). -/
def pairs : List (Nat × Nat) :=
  [(1, 13), (2, 8), (3, 5), (5, 3), (8, 2), (13, 1), (21, 1), (34, 1),
   (55, 1), (89, 1), (144, 1), (233, 1), (377, 1), (610, 1), (987, 1)]

/-- Function `createIndexList`: expand each `(value, count)` pair of the base table
into `Math.floor(count * inverseValueDict[stretchRate])` copies of `value`,
in table order.  The float product `count * (q/4)` is exact for these
magnitudes, so its floor is `count * q / 4` in `ℕ`.  For a `stretchRate`
outside the dictionary the JS count is `NaN` and the push loop runs zero
times (the `none` branch). -/
def createIndexList (stretchRate : Nat) : List Nat :=
  (pairs.map (fun p =>
    match inverseValueDict stretchRate with
    | some q => List.replicate (p.2 * q / 4) p.1
    | none => [])).flatten

/-- The intensity-to-factor table exactly as the specification states it
(13→1.00 down to 1→4.00 in steps of 0.25); used to state the claims about
`createIndexList` in the specification's own terms. -/
def specScaleFactor : Nat → ℚ
  | 13 => 1 | 12 => 1.25 | 11 => 1.5 | 10 => 1.75 | 9 => 2 | 8 => 2.25
  | 7 => 2.5 | 6 => 2.75 | 5 => 3 | 4 => 3.25 | 3 => 3.5 | 2 => 3.75
  | 1 => 4
  | _ => 0

/-- A JS loop `for (i = 0; i < n; i++) d[pos + i] = f(i)` writing into a
`Uint8ClampedArray` modelled as a byte list: out-of-range stores are
ignored, as with `List.set`. -/
def writeBytesF (d : List Nat) (pos n : Nat) (f : Nat → Nat) : List Nat :=
  (List.range n).foldl (fun acc i => acc.set (pos + i) (f i)) d

/-- A JS loop `for (i = 0; i < n; i++) out[i] = d[pos + i]` building a fresh
`Uint8ClampedArray`: missing source indices read as `undefined` and store
as `0`. -/
def readBytes (d : List Nat) (pos n : Nat) : List Nat :=
  (List.range n).map (fun i => d.getD (pos + i) 0)

/-- Bit length of a natural number (`0` for `0`), with explicit fuel so the
recursion is structural and kernel-evaluable. -/
def bitsFuel : Nat → Nat → Nat
  | 0, _ => 0
  | fuel + 1, n => if n = 0 then 0 else bitsFuel fuel (n / 2) + 1

/-- Number of bits of `n`: the unique `B` with `2 ^ (B - 1) ≤ n < 2 ^ B`
for `n ≥ 1`, and `0` for `n = 0`. -/
def natBits (n : Nat) : Nat := bitsFuel n n

/-- Value `m / 2 ^ s` rounded to the nearest integer, ties to even. -/
def roundNatShift (m s : Nat) : Nat :=
  if s = 0 then m
  else
    let q := m / 2 ^ s
    let r := m % 2 ^ s
    let half := 2 ^ (s - 1)
    if r < half then q
    else if half < r then q + 1
    else if q % 2 = 0 then q else q + 1

/-- Value `n / d` (`d ≥ 1`) rounded to the nearest integer, ties to even. -/
def roundNatDiv (n d : Nat) : Nat :=
  let q := n / d
  let r := n % d
  if 2 * r < d then q
  else if d < 2 * r then q + 1
  else if q % 2 = 0 then q else q + 1

/-- An IEEE-754 binary64 value, represented exactly as the dyadic rational
`mant * 2 ^ exp`.  The magnitudes produced by the gradient computation stay
far from the subnormal and overflow ranges, so the exponent is unbounded
here and a value is representable iff `|mant| ≤ 2 ^ 53` at some exponent. -/
structure F64 where
  mant : Int
  exp : Int
deriving Repr, DecidableEq

/-- Renormalization after an exact sum or product: round the significand
`m` to 53 bits (nearest, ties to even), adjusting the exponent.  Rounding
to the nearest even significand is symmetric, so the sign is split off. -/
def roundMant (m : Int) (e : Int) : F64 :=
  if m.natAbs ≤ 2 ^ 53 then ⟨m, e⟩
  else
    let s := natBits m.natAbs - 53
    ⟨m.sign * (roundNatShift m.natAbs s : Int), e + s⟩

/-- Double division `fl(p / q)` of an exact integer `p` by an exact positive
integer `q`: scale `|p| / q` into the binade `[2 ^ 52, 2 ^ 53)` and round
the quotient to the nearest integer, ties to even. -/
def flDiv (p : Int) (q : Nat) : F64 :=
  if p = 0 then ⟨0, 0⟩
  else
    let P := p.natAbs
    let t0 : Int := 52 - ((natBits P : Int) - (natBits q : Int))
    let N0 := if 0 ≤ t0 then P * 2 ^ t0.toNat else P
    let D := if 0 ≤ t0 then q else q * 2 ^ (-t0).toNat
    let bump : Bool := N0 < 2 ^ 52 * D
    let N := if bump then 2 * N0 else N0
    let t := if bump then t0 + 1 else t0
    ⟨p.sign * (roundNatDiv N D : Int), -t⟩

/-- Double multiplication `fl(x * k)` of a double `x` by an exact
nonnegative integer `k`: the product of the exact values, renormalized. -/
def flScale (x : F64) (k : Nat) : F64 :=
  roundMant (x.mant * k) x.exp

/-- Double addition `fl(a + x)` of an exact integer `a` and a double `x`:
the exact sum brought to the smaller exponent, renormalized. -/
def flAddInt (a : Int) (x : F64) : F64 :=
  if 0 ≤ x.exp then roundMant (a + x.mant * 2 ^ x.exp.toNat) 0
  else roundMant (a * 2 ^ (-x.exp).toNat + x.mant) x.exp

/-- Function `Math.round` on a double: the nearest integer to its exact
value, ties toward `+∞`, i.e. `⌊v + 1/2⌋` (floor division by the power of
two clearing the fractional bits). -/
def jsRound (x : F64) : Int :=
  if 0 ≤ x.exp then x.mant * 2 ^ x.exp.toNat
  else Int.fdiv (2 * x.mant + 2 ^ (-x.exp).toNat) (2 ^ (1 + (-x.exp).toNat))

/-- One interpolated channel byte of `createGradient`:
`Math.round(startVal + step * gradientRow)` with
`step = (endVal - startVal) / (gradientSize + 1)`, evaluated in binary64
arithmetic exactly as the source's JS `number`s are: the division, the
multiplication and the addition each round to the nearest double (the
operands `startVal`, `endVal`, `gradientSize + 1` and `gradientRow` are
small integers, which convert to doubles exactly).  The rounded result can
differ from exact-rational evaluation: at `a = 29`, `b = 0`, `g = 13`,
`k = 7` the doubles give `14.499999999999998`, which `Math.round`s to `14`,
while exact arithmetic gives `14.5`, which rounds half-up to `15`. -/
def gradientByte (a b g k : Nat) : Nat :=
  (jsRound (flAddInt (a : Int)
    (flScale (flDiv ((b : Int) - (a : Int)) (g + 1)) k))).toNat

/-- The inner column/channel loops of `createGradient` for one intermediate
row `gradientRow ∈ [1, gradientSize]`: positions `col*4 + c` with `c < 3`
get the interpolated channel, positions `col*4 + 3` get alpha `255`. -/
def gradientRowBytes (row1 row2 : List Nat) (gradientSize gradientRow width : Nat) :
    List Nat :=
  (List.range (width * 4)).map (fun i =>
    if i % 4 = 3 then 255
    else gradientByte (row1.getD i 0) (row2.getD i 0) gradientSize gradientRow)

/-- Function `createGradient`: row `0` is `twoRowArray[0]` copied onto a fresh zero
row of `width*4` bytes, row `gradientSize+1` is `twoRowArray[1]` likewise,
and rows `1..gradientSize` are the interpolated rows. -/
def createGradient (row1 row2 : List Nat) (gradientSize width : Nat) :
    List (List Nat) :=
  [readBytes row1 0 (width * 4)]
    ++ (List.range gradientSize).map
        (fun j => gradientRowBytes row1 row2 gradientSize (j + 1) width)
    ++ [readBytes row2 0 (width * 4)]

/-- The inner copy loop of `buildNewImage`: append the gradient rows except
the last one to `newData`, advancing the write cursor while it is below
`newHeight`.  The state is `(newData, newRowIndex)`. -/
def copyGradRows (grad : List (List Nat)) (width newHeight : Nat)
    (st : List Nat × Nat) : List Nat × Nat :=
  (List.range (grad.length - 1)).foldl
    (fun st gradRow =>
      if st.2 < newHeight then
        (writeBytesF st.1 (st.2 * (width * 4)) (width * 4)
          (fun i => (grad.getD gradRow []).getD i 0), st.2 + 1)
      else st)
    st

/-- The main `for (sourceRow = startingPixel; sourceRow < height - 1 &&
indexListIndex < indexList.length; sourceRow++)` loop of `buildNewImage`.
`sourceRow` strictly increases towards `height - 1`, so `height` steps of
fuel (as supplied by `buildNewImage`) never cut the loop short. -/
def buildLoop (indexList : List Nat) (sourceData : List Nat)
    (width height newHeight : Nat) :
    Nat → Nat → Nat → Nat → List Nat → List Nat × Nat
  | 0, _, _, newRowIndex, newData => (newData, newRowIndex)
  | fuel + 1, sourceRow, indexListIndex, newRowIndex, newData =>
    if sourceRow < height - 1 ∧ indexListIndex < indexList.length then
      if newHeight ≤ newRowIndex then (newData, newRowIndex)
      else
        let gradientSize := indexList.getD indexListIndex 0
        let row1 := readBytes sourceData (sourceRow * (width * 4)) (width * 4)
        let row2 := readBytes sourceData ((sourceRow + 1) * (width * 4)) (width * 4)
        let grad := createGradient row1 row2 gradientSize width
        let st := copyGradRows grad width newHeight (newData, newRowIndex)
        buildLoop indexList sourceData width height newHeight fuel
          (sourceRow + 1) (indexListIndex + 1) st.2 st.1
    else (newData, newRowIndex)

/-- Function `buildNewImage`: precompute the output height from the index list, copy
the rows before `startingPixel` unchanged, then run the gradient loop.  The
returned `height` is the final write-cursor position `newRowIndex`. -/
def buildNewImage (indexList : List Nat) (src : PixelBuffer)
    (startingPixel : Nat) : PixelBuffer :=
  let width := src.width
  let height := src.height
  let newHeight :=
    startingPixel + ((indexList.take (height - startingPixel - 1)).map (· + 1)).sum
  let d0 := List.replicate (newHeight * (width * 4)) 0
  let d1 := (List.range startingPixel).foldl
    (fun d row => writeBytesF d (row * (width * 4)) (width * 4)
      (fun i => src.data.getD (row * (width * 4) + i) 0)) d0
  let st := buildLoop indexList src.data width height newHeight height
    startingPixel 0 startingPixel d1
  { data := st.1, width := width, height := st.2 }

/-- The `startX` of `cropToOriginalSize`'s `switch` (`Math.max(0, ·)` is
truncated subtraction in `ℕ`). -/
def cropStartX (s : PixelBuffer) (originalWidth : Nat) : Direction → Nat
  | .left => s.width - originalWidth
  | _ => 0

/-- The `startY` of `cropToOriginalSize`'s `switch`. -/
def cropStartY (s : PixelBuffer) (originalHeight : Nat) : Direction → Nat
  | .up => s.height - originalHeight
  | _ => 0

/-- Function `cropToOriginalSize`: if the buffer already has the target size return
it unchanged, otherwise copy an anchored window, clamping source
coordinates to the last row/column.  The `y`/`x`/`c` loops write target
index `(y*cropWidth + x)*4 + c` in strictly increasing order, i.e. they
build the output bytes row by row, pixel by pixel, channel by channel. -/
def cropToOriginalSize (s : PixelBuffer) (originalWidth originalHeight : Nat)
    (direction : Direction) : PixelBuffer :=
  if s.width = originalWidth ∧ s.height = originalHeight then s
  else
    let startX := cropStartX s originalWidth direction
    let startY := cropStartY s originalHeight direction
    { data :=
        ((List.range originalHeight).map (fun y =>
          ((List.range originalWidth).map (fun x =>
            let sourceX := min (startX + x) (s.width - 1)
            let sourceY := min (startY + y) (s.height - 1)
            (List.range 4).map (fun c =>
              s.data.getD ((sourceY * s.width + sourceX) * 4 + c) 0))).flatten)).flatten
      width := originalWidth
      height := originalHeight }

/-- Function `rotateImageData`: scatter every source pixel `(x, y)` to
`(height-1-y, x)` (clockwise) or `(y, width-1-x)` (counter-clockwise) in a
fresh `height × width` zero buffer. -/
def rotateImageData (img : PixelBuffer) (clockwise : Bool) : PixelBuffer :=
  let newWidth := img.height
  let newHeight := img.width
  let d0 := List.replicate (newWidth * newHeight * 4) 0
  let d :=
    (List.range img.height).foldl (fun d y =>
      (List.range img.width).foldl (fun d x =>
        let newX := if clockwise then img.height - 1 - y else y
        let newY := if clockwise then x else img.width - 1 - x
        writeBytesF d ((newY * newWidth + newX) * 4) 4
          (fun c => img.data.getD ((y * img.width + x) * 4 + c) 0)) d) d0
  { data := d, width := newWidth, height := newHeight }

/-- Function `stretchImage`: rotate to the canonical downward case, clamp the
starting pixel, build the stretched image, rotate back, and crop to the
original size.  The source's `try`/`catch` wrapper is dead in this total
model; its `else` branch (starting pixel at or past the working height)
returns a copy of the input. -/
def stretchImage (imageData : PixelBuffer) (params : StretchParams) : PixelBuffer :=
  let indexList := createIndexList params.stretchRate
  let workingImageData : PixelBuffer :=
    match params.direction with
    | .down => imageData
    | .up => rotateImageData (rotateImageData imageData true) true
    | .right => rotateImageData imageData true
    | .left => rotateImageData imageData false
  let workingStartingPixel : Nat :=
    match params.direction with
    | .down => min params.startingPixel (imageData.height - 1)
    | .up => workingImageData.height - min params.startingPixel (imageData.height - 1) - 1
    | .right => workingImageData.height - min params.startingPixel (imageData.width - 1) - 1
    | .left => min params.startingPixel (imageData.width - 1)
  if workingStartingPixel < workingImageData.height then
    let stretchedData := buildNewImage indexList workingImageData workingStartingPixel
    let rotatedBack : PixelBuffer :=
      match params.direction with
      | .down => stretchedData
      | .up => rotateImageData (rotateImageData stretchedData true) true
      | .right => rotateImageData stretchedData false
      | .left => rotateImageData stretchedData true
    cropToOriginalSize rotatedBack imageData.width imageData.height params.direction
  else
    { data := imageData.data, width := imageData.width, height := imageData.height }

/-! ### Byte-write machinery -/

lemma getD_set_eq (l : List Nat) (m v : Nat) (h : m < l.length) :
    (l.set m v).getD m 0 = v := by
  simp [List.getD_eq_getElem?_getD, List.getElem?_set_self h]

lemma getD_set_ne (l : List Nat) (m j v : Nat) (h : m ≠ j) :
    (l.set m v).getD j 0 = l.getD j 0 := by
  simp [List.getD_eq_getElem?_getD, List.getElem?_set_ne h]

lemma writeBytesF_succ (d : List Nat) (pos n : Nat) (f : Nat → Nat) :
    writeBytesF d pos (n + 1) f = (writeBytesF d pos n f).set (pos + n) (f n) := by
  unfold writeBytesF
  rw [List.range_succ, List.foldl_append]
  rfl

lemma writeBytesF_length (d : List Nat) (pos n : Nat) (f : Nat → Nat) :
    (writeBytesF d pos n f).length = d.length := by
  induction n with
  | zero => rfl
  | succ n ih => rw [writeBytesF_succ, List.length_set, ih]

lemma writeBytesF_getD_out (d : List Nat) (pos n : Nat) (f : Nat → Nat) (j : Nat)
    (h : j < pos ∨ pos + n ≤ j) :
    (writeBytesF d pos n f).getD j 0 = d.getD j 0 := by
  induction n with
  | zero => rfl
  | succ n ih =>
      rw [writeBytesF_succ, getD_set_ne _ _ _ _ (by omega), ih (by omega)]

lemma writeBytesF_getD_hit (d : List Nat) (pos n : Nat) (f : Nat → Nat) (j : Nat)
    (h1 : pos ≤ j) (h2 : j < pos + n) (h3 : j < d.length) :
    (writeBytesF d pos n f).getD j 0 = f (j - pos) := by
  induction n with
  | zero => omega
  | succ n ih =>
      rw [writeBytesF_succ]
      by_cases hj : j = pos + n
      · subst hj
        rw [getD_set_eq]
        · congr 1
          omega
        · rw [writeBytesF_length]
          exact h3
      · rw [getD_set_ne _ _ _ _ (by omega), ih (by omega)]

/-- A sequence of block writes: the common shape of the row-copy loops of
`buildNewImage` and the pixel-scatter loops of `rotateImageData`. -/
def writeRun {α : Type} (d : List Nat) (l : List α) (t : α → Nat) (sz : Nat)
    (f : α → Nat → Nat) : List Nat :=
  l.foldl (fun dd a => writeBytesF dd (t a) sz (f a)) d

lemma writeRun_nil {α : Type} (d : List Nat) (t : α → Nat) (sz : Nat)
    (f : α → Nat → Nat) : writeRun d [] t sz f = d := rfl

lemma writeRun_cons {α : Type} (d : List Nat) (c : α) (cs : List α) (t : α → Nat)
    (sz : Nat) (f : α → Nat → Nat) :
    writeRun d (c :: cs) t sz f = writeRun (writeBytesF d (t c) sz (f c)) cs t sz f := rfl

lemma writeRun_length {α : Type} (d : List Nat) (l : List α) (t : α → Nat)
    (sz : Nat) (f : α → Nat → Nat) : (writeRun d l t sz f).length = d.length := by
  induction l generalizing d with
  | nil => rfl
  | cons c cs ih => rw [writeRun_cons, ih, writeBytesF_length]

lemma writeRun_untouched {α : Type} (d : List Nat) (l : List α) (t : α → Nat)
    (sz : Nat) (f : α → Nat → Nat) (j : Nat)
    (hj : ∀ a ∈ l, j < t a ∨ t a + sz ≤ j) :
    (writeRun d l t sz f).getD j 0 = d.getD j 0 := by
  induction l generalizing d with
  | nil => rfl
  | cons c cs ih =>
      rw [writeRun_cons, ih _ (fun a ha => hj a (List.mem_cons_of_mem _ ha)),
        writeBytesF_getD_out _ _ _ _ _ (hj c (List.mem_cons_self c cs))]

lemma writeRun_hit {α : Type} (d : List Nat) (l : List α) (t : α → Nat)
    (sz : Nat) (f : α → Nat → Nat) (a : α) (j : Nat)
    (hmem : a ∈ l) (hnd : l.Nodup)
    (hdisj : ∀ b ∈ l, b ≠ a → t b + sz ≤ t a ∨ t a + sz ≤ t b)
    (h1 : t a ≤ j) (h2 : j < t a + sz) (h3 : j < d.length) :
    (writeRun d l t sz f).getD j 0 = f a (j - t a) := by
  induction l generalizing d with
  | nil => cases hmem
  | cons c cs ih =>
      rw [writeRun_cons]
      rcases List.mem_cons.mp hmem with hca | hacs
      · subst hca
        have hnotin : a ∉ cs := (List.nodup_cons.mp hnd).1
        rw [writeRun_untouched]
        · exact writeBytesF_getD_hit _ _ _ _ _ h1 h2 h3
        · intro b hb
          have hba : b ≠ a := fun hba => hnotin (hba ▸ hb)
          rcases hdisj b (List.mem_cons_of_mem _ hb) hba with hlt | hgt
          · right; omega
          · left; omega
      · exact ih _ hacs (List.nodup_cons.mp hnd).2
          (fun b hb hba => hdisj b (List.mem_cons_of_mem _ hb) hba)
          (by rw [writeBytesF_length]; exact h3)

/-! ### Reading, flattening and index decomposition -/

lemma getD_map_range (f : Nat → Nat) (n i : Nat) (hi : i < n) :
    ((List.range n).map f).getD i 0 = f i := by
  rw [List.getD_eq_getElem?_getD]
  simp [List.getElem?_range, hi]

lemma readBytes_length (d : List Nat) (pos n : Nat) :
    (readBytes d pos n).length = n := by
  simp [readBytes]

lemma readBytes_getD (d : List Nat) (pos n i : Nat) (hi : i < n) :
    (readBytes d pos n).getD i 0 = d.getD (pos + i) 0 :=
  getD_map_range _ _ _ hi

lemma readBytes_eq_self (d : List Nat) (n : Nat) (h : d.length = n) :
    readBytes d 0 n = d := by
  apply List.ext_getElem
  · simp [readBytes, h]
  · intro i h1 h2
    simp only [readBytes, List.getElem_map, List.getElem_range]
    rw [Nat.zero_add, List.getD_eq_getElem]

lemma flatten_map_range_length (f : Nat → List Nat) (L n : Nat)
    (hL : ∀ k < n, (f k).length = L) :
    (((List.range n).map f).flatten).length = n * L := by
  induction n with
  | zero => simp
  | succ n ih =>
      rw [List.range_succ, List.map_append, List.flatten_append,
        List.length_append, ih (fun k hk => hL k (by omega))]
      simp [hL n (by omega), Nat.succ_mul]

lemma flatten_map_range_getD (f : Nat → List Nat) (L n r i : Nat)
    (hL : ∀ k < n, (f k).length = L) (hr : r < n) (hi : i < L) :
    (((List.range n).map f).flatten).getD (r * L + i) 0 = (f r).getD i 0 := by
  induction n with
  | zero => omega
  | succ n ih =>
      rw [List.range_succ, List.map_append, List.flatten_append]
      by_cases hrn : r < n
      · rw [List.getD_append]
        · exact ih (fun k hk => hL k (by omega)) hrn
        · rw [flatten_map_range_length f L n (fun k hk => hL k (by omega))]
          have h2 : r * L + L ≤ n * L := by
            have := Nat.mul_le_mul_right L (show r + 1 ≤ n by omega)
            rwa [Nat.add_mul, Nat.one_mul] at this
          omega
      · have hrn' : r = n := by omega
        rw [hrn', List.getD_append_right]
        · rw [flatten_map_range_length f L n (fun k hk => hL k (by omega))]
          have h3 : n * L + i - n * L = i := by omega
          rw [h3]
          simp
        · rw [flatten_map_range_length f L n (fun k hk => hL k (by omega))]
          omega

lemma byte_index_decomp (j W H : Nat) (hj : j < H * W * 4) :
    ∃ y x c, y < H ∧ x < W ∧ c < 4 ∧ j = (y * W + x) * 4 + c := by
  have hW : 0 < W := by
    rcases Nat.eq_zero_or_pos W with h | h
    · subst h; omega
    · exact h
  have hW4 : 0 < W * 4 := by omega
  refine ⟨j / (W * 4), (j % (W * 4)) / 4, j % 4, ?_, ?_, ?_, ?_⟩
  · rw [Nat.div_lt_iff_lt_mul hW4]
    calc j < H * W * 4 := hj
      _ = H * (W * 4) := by ring
  · have := Nat.mod_lt j hW4
    omega
  · omega
  · have h1 : j % 4 = (j % (W * 4)) % 4 :=
      (Nat.mod_mod_of_dvd j ⟨W, by ring⟩).symm
    calc j = W * 4 * (j / (W * 4)) + j % (W * 4) := (Nat.div_add_mod _ _).symm
      _ = W * 4 * (j / (W * 4)) + (4 * (j % (W * 4) / 4) + j % (W * 4) % 4) := by
            have hB := Nat.div_add_mod (j % (W * 4)) 4
            omega
      _ = (j / (W * 4) * W + j % (W * 4) / 4) * 4 + j % 4 := by rw [h1]; ring

/-! ### Sums of index-list runs -/

/-- The number of output rows contributed by entries `idx, …, idx+m-1` of an
index list: each entry `v` contributes `v + 1` rows. -/
def sumRun (l : List Nat) : Nat → Nat → Nat
  | _, 0 => 0
  | idx, m + 1 => (l.getD idx 0 + 1) + sumRun l (idx + 1) m

lemma sumRun_zero (l : List Nat) (idx : Nat) : sumRun l idx 0 = 0 := rfl

lemma sumRun_succ_front (l : List Nat) (idx m : Nat) :
    sumRun l idx (m + 1) = (l.getD idx 0 + 1) + sumRun l (idx + 1) m := rfl

lemma sumRun_succ_back (l : List Nat) (idx m : Nat) :
    sumRun l idx (m + 1) = sumRun l idx m + (l.getD (idx + m) 0 + 1) := by
  induction m generalizing idx with
  | zero => simp [sumRun]
  | succ m ih =>
      have h : idx + 1 + m = idx + (m + 1) := by omega
      calc sumRun l idx (m + 1 + 1)
          = (l.getD idx 0 + 1) + sumRun l (idx + 1) (m + 1) := rfl
        _ = (l.getD idx 0 + 1) + (sumRun l (idx + 1) m + (l.getD (idx + 1 + m) 0 + 1)) := by
              rw [ih]
        _ = ((l.getD idx 0 + 1) + sumRun l (idx + 1) m) + (l.getD (idx + (m + 1)) 0 + 1) := by
              rw [h]; omega
        _ = sumRun l idx (m + 1) + (l.getD (idx + (m + 1)) 0 + 1) := rfl

/-- Lemma stating `sumRun` as the specification writes it: a sum over the index
range. -/
lemma sumRun_eq_sum (l : List Nat) (idx m : Nat) :
    sumRun l idx m = ((List.range m).map (fun i => l.getD (idx + i) 0 + 1)).sum := by
  induction m with
  | zero => rfl
  | succ m ih =>
      rw [sumRun_succ_back, ih, List.range_succ, List.map_append, List.sum_append]
      simp

lemma sumRun_le (l : List Nat) (idx m : Nat) : m ≤ sumRun l idx m := by
  induction m generalizing idx with
  | zero => exact Nat.le_refl 0
  | succ m ih =>
      rw [sumRun_succ_front]
      have := ih (idx + 1)
      omega

lemma sumRun_cons (a : Nat) (tl : List Nat) (idx m : Nat) :
    sumRun (a :: tl) (idx + 1) m = sumRun tl idx m := by
  induction m generalizing idx with
  | zero => rfl
  | succ m ih =>
      rw [sumRun_succ_front, sumRun_succ_front, List.getD_cons_succ, ih]

/-! ### Rotation: scatter writes as a `writeRun` over all pixels -/

/-- All `(y, x)` pixel coordinates in the order the nested rotation loops
visit them. -/
def pixPairs (H W : Nat) : List (Nat × Nat) :=
  (List.range H).flatMap (fun y => (List.range W).map (fun x => (y, x)))

lemma foldl_flatMap_eq {α β γ : Type} (g : γ → β → γ) (h : α → List β)
    (l : List α) (init : γ) :
    (l.flatMap h).foldl g init = l.foldl (fun acc a => (h a).foldl g acc) init := by
  induction l generalizing init with
  | nil => rfl
  | cons c cs ih =>
      rw [List.flatMap_cons, List.foldl_append, ih, List.foldl_cons]

lemma mem_pixPairs (H W : Nat) (p : Nat × Nat) :
    p ∈ pixPairs H W ↔ p.1 < H ∧ p.2 < W := by
  constructor
  · intro hp
    rcases List.mem_flatMap.mp hp with ⟨y, hy, hmap⟩
    rcases List.mem_map.mp hmap with ⟨x, hx, hpx⟩
    subst hpx
    exact ⟨List.mem_range.mp hy, List.mem_range.mp hx⟩
  · intro ⟨h1, h2⟩
    exact List.mem_flatMap.mpr ⟨p.1, List.mem_range.mpr h1,
      List.mem_map.mpr ⟨p.2, List.mem_range.mpr h2, by simp⟩⟩

lemma nodup_pixPairs (H W : Nat) : (pixPairs H W).Nodup := by
  induction H with
  | zero => exact List.nodup_nil
  | succ H ih =>
      have hsplit : pixPairs (H + 1) W =
          pixPairs H W ++ (List.range W).map (fun x => (H, x)) := by
        unfold pixPairs
        rw [List.range_succ, List.flatMap_append]
        simp
      rw [hsplit]
      apply List.Nodup.append ih
      · exact (List.nodup_range W).map (fun a b hab => by
          simpa using congrArg Prod.snd hab)
      · intro p hp1 hp2
        have h1 : p.1 < H := ((mem_pixPairs H W p).mp hp1).1
        rcases List.mem_map.mp hp2 with ⟨x, _, hpx⟩
        rw [← hpx] at h1
        exact absurd h1 (by omega)

/-- The scatter target byte offset of pixel `(y, x)` under rotation. -/
def rotTarget (img : PixelBuffer) (clockwise : Bool) (p : Nat × Nat) : Nat :=
  ((if clockwise then p.2 else img.width - 1 - p.2) * img.height +
    (if clockwise then img.height - 1 - p.1 else p.1)) * 4

/-- The nested loops of `rotateImageData` are a `writeRun` over all pixels. -/
lemma rotateImageData_data (img : PixelBuffer) (cw : Bool) :
    (rotateImageData img cw).data =
      writeRun (List.replicate (img.height * img.width * 4) 0)
        (pixPairs img.height img.width) (rotTarget img cw) 4
        (fun p c => img.data.getD ((p.1 * img.width + p.2) * 4 + c) 0) := by
  simp only [rotateImageData, writeRun, pixPairs, foldl_flatMap_eq, List.foldl_map,
    rotTarget]

lemma rotateImageData_length (img : PixelBuffer) (cw : Bool) :
    (rotateImageData img cw).data.length = img.height * img.width * 4 := by
  rw [rotateImageData_data, writeRun_length, List.length_replicate]

lemma rotateImageData_width (img : PixelBuffer) (cw : Bool) :
    (rotateImageData img cw).width = img.height := rfl

lemma rotateImageData_height (img : PixelBuffer) (cw : Bool) :
    (rotateImageData img cw).height = img.width := rfl

lemma mul_add_lt_inj (H x1 r1 x2 r2 : Nat) (h1 : r1 < H) (h2 : r2 < H)
    (heq : x1 * H + r1 = x2 * H + r2) : x1 = x2 ∧ r1 = r2 := by
  have k1 : (r1 + x1 * H) / H = x1 := by
    rw [Nat.add_mul_div_right _ _ (by omega : 0 < H), Nat.div_eq_of_lt h1,
      Nat.zero_add]
  have k2 : (r2 + x2 * H) / H = x2 := by
    rw [Nat.add_mul_div_right _ _ (by omega : 0 < H), Nat.div_eq_of_lt h2,
      Nat.zero_add]
  have k3 : (r1 + x1 * H) % H = r1 := by
    rw [Nat.add_mul_mod_self_right, Nat.mod_eq_of_lt h1]
  have k4 : (r2 + x2 * H) % H = r2 := by
    rw [Nat.add_mul_mod_self_right, Nat.mod_eq_of_lt h2]
  have heq' : r1 + x1 * H = r2 + x2 * H := by omega
  constructor
  · rw [← k1, ← k2, heq']
  · rw [← k3, ← k4, heq']

lemma rotTarget_inj (img : PixelBuffer) (cw : Bool) (p q : Nat × Nat)
    (hp : p ∈ pixPairs img.height img.width)
    (hq : q ∈ pixPairs img.height img.width)
    (heq : rotTarget img cw p = rotTarget img cw q) : p = q := by
  obtain ⟨py, px⟩ := p
  obtain ⟨qy, qx⟩ := q
  obtain ⟨hp1, hp2⟩ := (mem_pixPairs _ _ _).mp hp
  obtain ⟨hq1, hq2⟩ := (mem_pixPairs _ _ _).mp hq
  simp only at hp1 hp2 hq1 hq2
  have hH : 0 < img.height := by omega
  unfold rotTarget at heq
  have heq' := Nat.eq_of_mul_eq_mul_right (by omega : (0:Nat) < 4) heq
  cases cw with
  | true =>
      simp only [if_true] at heq'
      have := mul_add_lt_inj img.height px (img.height - 1 - py) qx
        (img.height - 1 - qy) (by omega) (by omega) heq'
      have hyy : py = qy := by omega
      have hxx : px = qx := this.1
      rw [hyy, hxx]
  | false =>
      simp only [if_false] at heq'
      have := mul_add_lt_inj img.height (img.width - 1 - px) py
        (img.width - 1 - qx) qy (by omega) (by omega) heq'
      have hyy : py = qy := this.2
      have hxx : px = qx := by
        have := this.1
        omega
      rw [hyy, hxx]

lemma rotTarget_mul4 (img : PixelBuffer) (cw : Bool) (p : Nat × Nat) :
    ∃ k, rotTarget img cw p = k * 4 :=
  ⟨_, rfl⟩

lemma rotate_getD_cw (img : PixelBuffer) (x y c : Nat) (hx : x < img.width)
    (hy : y < img.height) (hc : c < 4) :
    (rotateImageData img true).data.getD
        ((x * img.height + (img.height - 1 - y)) * 4 + c) 0
      = img.data.getD ((y * img.width + x) * 4 + c) 0 := by
  rw [rotateImageData_data]
  have hmem : (y, x) ∈ pixPairs img.height img.width :=
    (mem_pixPairs _ _ _).mpr ⟨hy, hx⟩
  have ht : rotTarget img true (y, x) =
      (x * img.height + (img.height - 1 - y)) * 4 := by
    simp [rotTarget]
  have hdisj : ∀ b ∈ pixPairs img.height img.width, b ≠ (y, x) →
      rotTarget img true b + 4 ≤ rotTarget img true (y, x) ∨
      rotTarget img true (y, x) + 4 ≤ rotTarget img true b := by
    intro b hb hbne
    obtain ⟨kb, hkb⟩ := rotTarget_mul4 img true b
    obtain ⟨ka, hka⟩ := rotTarget_mul4 img true (y, x)
    have hne : rotTarget img true b ≠ rotTarget img true (y, x) :=
      fun h => hbne (rotTarget_inj img true b (y, x) hb hmem h)
    omega
  have hb1 : x * img.height + (img.height - 1 - y) <
      img.width * img.height := by
    have h6 := Nat.mul_le_mul_right img.height
      (show x + 1 ≤ img.width by omega)
    rw [Nat.add_mul, Nat.one_mul] at h6
    omega
  have hlen : rotTarget img true (y, x) + c <
      (List.replicate (img.height * img.width * 4) (0 : Nat)).length := by
    rw [List.length_replicate, ht]
    have hcomm : img.width * img.height = img.height * img.width :=
      Nat.mul_comm _ _
    omega
  have key := writeRun_hit (List.replicate (img.height * img.width * 4) 0)
    (pixPairs img.height img.width) (rotTarget img true) 4
    (fun p c => img.data.getD ((p.1 * img.width + p.2) * 4 + c) 0)
    (y, x) (rotTarget img true (y, x) + c)
    hmem (nodup_pixPairs _ _) hdisj (by omega) (by omega) hlen
  rw [Nat.add_sub_cancel_left] at key
  rw [← ht]
  exact key

lemma rotate_getD_ccw (img : PixelBuffer) (x y c : Nat) (hx : x < img.width)
    (hy : y < img.height) (hc : c < 4) :
    (rotateImageData img false).data.getD
        (((img.width - 1 - x) * img.height + y) * 4 + c) 0
      = img.data.getD ((y * img.width + x) * 4 + c) 0 := by
  rw [rotateImageData_data]
  have hmem : (y, x) ∈ pixPairs img.height img.width :=
    (mem_pixPairs _ _ _).mpr ⟨hy, hx⟩
  have ht : rotTarget img false (y, x) =
      ((img.width - 1 - x) * img.height + y) * 4 := by
    simp [rotTarget]
  have hdisj : ∀ b ∈ pixPairs img.height img.width, b ≠ (y, x) →
      rotTarget img false b + 4 ≤ rotTarget img false (y, x) ∨
      rotTarget img false (y, x) + 4 ≤ rotTarget img false b := by
    intro b hb hbne
    obtain ⟨kb, hkb⟩ := rotTarget_mul4 img false b
    obtain ⟨ka, hka⟩ := rotTarget_mul4 img false (y, x)
    have hne : rotTarget img false b ≠ rotTarget img false (y, x) :=
      fun h => hbne (rotTarget_inj img false b (y, x) hb hmem h)
    omega
  have hb1 : (img.width - 1 - x) * img.height + y < img.width * img.height := by
    have h6 := Nat.mul_le_mul_right img.height
      (show img.width - 1 - x + 1 ≤ img.width by omega)
    rw [Nat.add_mul, Nat.one_mul] at h6
    omega
  have hlen : rotTarget img false (y, x) + c <
      (List.replicate (img.height * img.width * 4) (0 : Nat)).length := by
    rw [List.length_replicate, ht]
    have hcomm : img.width * img.height = img.height * img.width :=
      Nat.mul_comm _ _
    omega
  have key := writeRun_hit (List.replicate (img.height * img.width * 4) 0)
    (pixPairs img.height img.width) (rotTarget img false) 4
    (fun p c => img.data.getD ((p.1 * img.width + p.2) * 4 + c) 0)
    (y, x) (rotTarget img false (y, x) + c)
    hmem (nodup_pixPairs _ _) hdisj (by omega) (by omega) hlen
  rw [Nat.add_sub_cancel_left] at key
  rw [← ht]
  exact key

/-! ### Row-block writes -/

lemma writeRun_append {α : Type} (d : List Nat) (l1 l2 : List α) (t : α → Nat)
    (sz : Nat) (f : α → Nat → Nat) :
    writeRun d (l1 ++ l2) t sz f = writeRun (writeRun d l1 t sz f) l2 t sz f := by
  unfold writeRun
  rw [List.foldl_append]

/-- Value of `getD` on a map over `List.range`, for an arbitrary element type. -/
lemma getD_map_range_any {α : Type} (f : Nat → α) (dflt : α) (n i : Nat)
    (hi : i < n) : ((List.range n).map f).getD i dflt = f i := by
  rw [List.getD_eq_getElem?_getD]
  simp [List.getElem?_range, hi]

/-- Writing `m` consecutive row blocks of size `K` starting at row `base`:
the byte at row `base + r`, offset `i`, receives `f r i`. -/
lemma rowWrite_hit (d : List Nat) (base m K : Nat) (f : Nat → Nat → Nat)
    (r i : Nat) (hr : r < m) (hi : i < K)
    (hlen : (base + r) * K + i < d.length) :
    (writeRun d (List.range m) (fun s => (base + s) * K) K f).getD
        ((base + r) * K + i) 0 = f r i := by
  have hK : 0 < K := by omega
  have key := writeRun_hit d (List.range m) (fun s => (base + s) * K) K f r
    ((base + r) * K + i) (List.mem_range.mpr hr) (List.nodup_range m)
    ?_ (by show (base + r) * K ≤ (base + r) * K + i; omega)
    (by show (base + r) * K + i < (base + r) * K + K; omega) hlen
  · rw [Nat.add_sub_cancel_left] at key
    exact key
  · intro b hb hbne
    have hbm : b < m := List.mem_range.mp hb
    show (base + b) * K + K ≤ (base + r) * K ∨ (base + r) * K + K ≤ (base + b) * K
    rcases Nat.lt_or_ge b r with hbr | hbr
    · left
      have := Nat.mul_le_mul_right K (show base + b + 1 ≤ base + r by omega)
      rw [Nat.add_mul, Nat.one_mul] at this
      omega
    · right
      have hbr' : r < b := by omega
      have := Nat.mul_le_mul_right K (show base + r + 1 ≤ base + b by omega)
      rw [Nat.add_mul, Nat.one_mul] at this
      omega

/-- Bytes below the first written row block are untouched. -/
lemma rowWrite_untouched (d : List Nat) (base m K : Nat) (f : Nat → Nat → Nat)
    (j : Nat) (hj : j < base * K) :
    (writeRun d (List.range m) (fun s => (base + s) * K) K f).getD j 0 =
      d.getD j 0 := by
  apply writeRun_untouched
  intro b _
  left
  have : base * K ≤ (base + b) * K := Nat.mul_le_mul_right K (by omega)
  omega

/-- Decompose a byte position inside a run of rows of size `K` into a row
index and an offset. -/
lemma row_block_decomp (j base m K : Nat) (h1 : base * K ≤ j)
    (h2 : j < (base + m) * K) :
    ∃ r i, r < m ∧ i < K ∧ j = (base + r) * K + i := by
  have hK : 0 < K := by
    rcases Nat.eq_zero_or_pos K with h | h
    · rw [h] at h2
      omega
    · exact h
  refine ⟨j / K - base, j % K, ?_, Nat.mod_lt _ hK, ?_⟩
  · have hdivlt : j / K < base + m := by
      rw [Nat.div_lt_iff_lt_mul hK]
      calc j < (base + m) * K := h2
        _ = (base + m) * K := rfl
    have hdivge : base ≤ j / K := by
      rw [Nat.le_div_iff_mul_le hK]
      omega
    omega
  · have hdivge : base ≤ j / K := by
      rw [Nat.le_div_iff_mul_le hK]
      omega
    have : (base + (j / K - base)) = j / K := by omega
    rw [this]
    exact (Nat.div_add_mod j K).symm.trans (by rw [Nat.mul_comm])

/-! ### Gradient rows -/

lemma createGradient_length (row1 row2 : List Nat) (g w : Nat) :
    (createGradient row1 row2 g w).length = g + 2 := by
  simp [createGradient]

lemma createGradient_getD_zero (row1 row2 : List Nat) (g w : Nat) :
    (createGradient row1 row2 g w).getD 0 [] = readBytes row1 0 (w * 4) := rfl

lemma createGradient_getD_mid (row1 row2 : List Nat) (g w r : Nat)
    (hr1 : 1 ≤ r) (hr2 : r ≤ g) :
    (createGradient row1 row2 g w).getD r [] =
      gradientRowBytes row1 row2 g r w := by
  unfold createGradient
  rw [List.getD_append _ _ _ _ (by simp; omega),
    List.getD_append_right _ _ _ _ (by simp; omega)]
  simp only [List.length_singleton]
  rw [getD_map_range_any _ _ _ _ (by omega : r - 1 < g)]
  congr 1
  omega

lemma createGradient_getD_last (row1 row2 : List Nat) (g w : Nat) :
    (createGradient row1 row2 g w).getD (g + 1) [] = readBytes row2 0 (w * 4) := by
  unfold createGradient
  rw [List.getD_append_right _ _ _ _ (by simp)]
  simp

lemma gradientRowBytes_length (row1 row2 : List Nat) (g k w : Nat) :
    (gradientRowBytes row1 row2 g k w).length = w * 4 := by
  simp [gradientRowBytes]

lemma gradientRowBytes_getD (row1 row2 : List Nat) (g k w i : Nat)
    (hi : i < w * 4) :
    (gradientRowBytes row1 row2 g k w).getD i 0 =
      if i % 4 = 3 then 255
      else gradientByte (row1.getD i 0) (row2.getD i 0) g k :=
  getD_map_range _ _ _ hi

/-- Every row of a gradient run (apart from the final one, which the build
loop never copies) has alpha `255` wherever the first source row does. -/
lemma createGradient_row_alpha (row1 row2 : List Nat) (g w r i : Nat)
    (hr : r < g + 1) (hi : i < w * 4) (hi4 : i % 4 = 3)
    (h1 : row1.getD i 0 = 255) :
    ((createGradient row1 row2 g w).getD r []).getD i 0 = 255 := by
  rcases Nat.eq_zero_or_pos r with hr0 | hrpos
  · rw [hr0, createGradient_getD_zero, readBytes_getD _ _ _ _ hi, Nat.zero_add]
    exact h1
  · rw [createGradient_getD_mid _ _ _ _ _ (by omega) (by omega),
      gradientRowBytes_getD _ _ _ _ _ _ hi, if_pos hi4]

lemma createGradient_row_length (row1 row2 : List Nat) (g w r : Nat)
    (hr : r < g + 2) :
    ((createGradient row1 row2 g w).getD r []).length = w * 4 := by
  rcases Nat.eq_zero_or_pos r with hr0 | hrpos
  · rw [hr0, createGradient_getD_zero, readBytes_length]
  · rcases Nat.lt_or_ge r (g + 1) with hrm | hrl
    · rw [createGradient_getD_mid _ _ _ _ _ (by omega) (by omega),
        gradientRowBytes_length]
    · have : r = g + 1 := by omega
      rw [this, createGradient_getD_last, readBytes_length]

/-- Every alpha byte (position `≡ 3 mod 4`) within range holds `255`. -/
def alphaOK (d : List Nat) : Prop :=
  ∀ j, j < d.length → j % 4 = 3 → d.getD j 0 = 255

instance (d : List Nat) : Decidable (alphaOK d) := by
  unfold alphaOK
  infer_instance

lemma rotate_alphaOK (img : PixelBuffer) (cw : Bool)
    (hlen : img.data.length = img.width * img.height * 4)
    (halpha : alphaOK img.data) : alphaOK (rotateImageData img cw).data := by
  intro j hj hj4
  rw [rotateImageData_length] at hj
  have hj' : j < img.width * img.height * 4 := by
    have := Nat.mul_comm img.width img.height
    omega
  obtain ⟨A, B, c, hA, hB, hc, hdecomp⟩ :=
    byte_index_decomp j img.height img.width hj'
  have hc3 : c = 3 := by omega
  subst hc3
  cases cw with
  | true =>
      have hy : img.height - 1 - (img.height - 1 - B) = B := by omega
      have hkey := rotate_getD_cw img A (img.height - 1 - B) 3 hA (by omega)
        (by omega)
      rw [hy] at hkey
      rw [hdecomp, hkey]
      apply halpha
      · rw [hlen]
        have h6 := Nat.mul_le_mul_right img.width
          (show img.height - 1 - B + 1 ≤ img.height by omega)
        rw [Nat.add_mul, Nat.one_mul] at h6
        have hcomm : img.height * img.width = img.width * img.height :=
          Nat.mul_comm _ _
        omega
      · omega
  | false =>
      have hx : img.width - 1 - (img.width - 1 - A) = A := by omega
      have hkey := rotate_getD_ccw img (img.width - 1 - A) B 3 (by omega) hB
        (by omega)
      rw [hx] at hkey
      rw [hdecomp, hkey]
      apply halpha
      · rw [hlen]
        have h6 := Nat.mul_le_mul_right img.width
          (show B + 1 ≤ img.height by omega)
        rw [Nat.add_mul, Nat.one_mul] at h6
        have hcomm : img.height * img.width = img.width * img.height :=
          Nat.mul_comm _ _
        omega
      · omega

lemma rotate_cw_ccw (img : PixelBuffer)
    (hlen : img.data.length = img.width * img.height * 4) :
    rotateImageData (rotateImageData img true) false = img := by
  have hBw : (rotateImageData img true).width = img.height := rfl
  have hBh : (rotateImageData img true).height = img.width := rfl
  ext : 1
  · apply List.ext_getElem
    · rw [rotateImageData_length, hBh, hBw, hlen]
    · intro j hj1 hj2
      rw [← List.getD_eq_getElem _ 0 hj1, ← List.getD_eq_getElem _ 0 hj2]
      rw [hlen] at hj2
      have hj' : j < img.height * img.width * 4 := by
        have := Nat.mul_comm img.width img.height
        omega
      obtain ⟨y, x, c, hy, hx, hc, hdecomp⟩ :=
        byte_index_decomp j img.width img.height hj'
      have h1 := rotate_getD_ccw (rotateImageData img true)
        (img.height - 1 - y) x c (by rw [hBw]; omega) (by rw [hBh]; exact hx) hc
      rw [hBw, hBh] at h1
      rw [show img.height - 1 - (img.height - 1 - y) = y by omega] at h1
      have h2 := rotate_getD_cw img x y c hx hy hc
      rw [hdecomp, h1, h2]
  · rfl
  · rfl

lemma rotate_ccw_cw (img : PixelBuffer)
    (hlen : img.data.length = img.width * img.height * 4) :
    rotateImageData (rotateImageData img false) true = img := by
  have hBw : (rotateImageData img false).width = img.height := rfl
  have hBh : (rotateImageData img false).height = img.width := rfl
  ext : 1
  · apply List.ext_getElem
    · rw [rotateImageData_length, hBh, hBw, hlen]
    · intro j hj1 hj2
      rw [← List.getD_eq_getElem _ 0 hj1, ← List.getD_eq_getElem _ 0 hj2]
      rw [hlen] at hj2
      have hj' : j < img.height * img.width * 4 := by
        have := Nat.mul_comm img.width img.height
        omega
      obtain ⟨y, x, c, hy, hx, hc, hdecomp⟩ :=
        byte_index_decomp j img.width img.height hj'
      have h1 := rotate_getD_cw (rotateImageData img false)
        y (img.width - 1 - x) c (by rw [hBw]; exact hy) (by rw [hBh]; omega) hc
      rw [hBw, hBh] at h1
      rw [show img.width - 1 - (img.width - 1 - x) = x by omega] at h1
      have h2 := rotate_getD_ccw img x y c hx hy hc
      rw [hdecomp, h1, h2]
  · rfl
  · rfl

lemma newHeight_formula (l : List Nat) (k : Nat) :
    ((l.take k).map (· + 1)).sum = sumRun l 0 (min l.length k) := by
  induction l generalizing k with
  | nil => simp [sumRun]
  | cons a tl ih =>
      cases k with
      | zero => simp [sumRun]
      | succ k =>
          simp only [List.take_succ_cons, List.map_cons, List.sum_cons, ih k]
          rw [show min (a :: tl).length (k + 1) = min tl.length k + 1 by
            simp [List.length_cons]; omega]
          rw [sumRun_succ_front, List.getD_cons_zero]
          rw [show (0 : Nat) + 1 = 0 + 1 from rfl, sumRun_cons]


/-! ### The build loop -/

lemma copyGradRows_spec (grad : List (List Nat)) (width newHeight : Nat)
    (d : List Nat) (cursor m : Nat) (hm : grad.length - 1 = m)
    (hroom : cursor + m ≤ newHeight) :
    copyGradRows grad width newHeight (d, cursor) =
      (writeRun d (List.range m) (fun r => (cursor + r) * (width * 4))
        (width * 4) (fun r i => (grad.getD r []).getD i 0), cursor + m) := by
  unfold copyGradRows
  rw [hm]
  clear hm
  induction m with
  | zero => simp [writeRun]
  | succ m ih =>
      rw [List.range_succ, List.foldl_append, writeRun_append, ih (by omega)]
      simp only [List.foldl_cons, List.foldl_nil]
      rw [if_pos (by omega : cursor + m < newHeight)]
      rfl

/-- The master invariant of `buildNewImage`'s main loop: with enough fuel
and `newHeight` equal to the cursor plus the rows still to be produced, the
loop (1) ends with the cursor exactly at `newHeight`, (2) preserves the
length of the data buffer, (3) leaves every byte below the entry cursor
untouched, and (4) propagates the alpha-255 invariant row by row. -/
lemma buildLoop_spec (l srcD : List Nat) (w h : Nat) (fuel : Nat) :
    ∀ (sr idx cur newH : Nat) (d : List Nat),
      min (l.length - idx) (h - 1 - sr) ≤ fuel →
      newH = cur + sumRun l idx (min (l.length - idx) (h - 1 - sr)) →
      (buildLoop l srcD w h newH fuel sr idx cur d).2 = newH ∧
      (buildLoop l srcD w h newH fuel sr idx cur d).1.length = d.length ∧
      (∀ j, j < cur * (w * 4) →
        (buildLoop l srcD w h newH fuel sr idx cur d).1.getD j 0 = d.getD j 0) ∧
      (srcD.length = h * (w * 4) →
        (∀ jj, jj < srcD.length → jj % 4 = 3 → srcD.getD jj 0 = 255) →
        (∀ j, j < cur * (w * 4) → j < d.length → j % 4 = 3 → d.getD j 0 = 255) →
        (∀ j, j < newH * (w * 4) → j < d.length → j % 4 = 3 →
          (buildLoop l srcD w h newH fuel sr idx cur d).1.getD j 0 = 255)) := by
  induction fuel with
  | zero =>
      intro sr idx cur newH d hfuel hnewH
      have hm : min (l.length - idx) (h - 1 - sr) = 0 := by omega
      rw [hm, sumRun_zero, Nat.add_zero] at hnewH
      subst hnewH
      exact ⟨rfl, rfl, fun j hj => rfl,
        fun _ _ hbelow j hj hjlen hj4 => hbelow j hj hjlen hj4⟩
  | succ fuel ih =>
      intro sr idx cur newH d hfuel hnewH
      by_cases hguard : sr < h - 1 ∧ idx < l.length
      · have hm1 : 1 ≤ min (l.length - idx) (h - 1 - sr) := by omega
        have hmin1 : min (l.length - (idx + 1)) (h - 1 - (sr + 1)) =
            min (l.length - idx) (h - 1 - sr) - 1 := by omega
        have hnewH' : newH = (cur + (l.getD idx 0 + 1)) +
            sumRun l (idx + 1) (min (l.length - (idx + 1)) (h - 1 - (sr + 1))) := by
          rw [hmin1]
          rw [show min (l.length - idx) (h - 1 - sr) =
            (min (l.length - idx) (h - 1 - sr) - 1) + 1 by omega,
            sumRun_succ_front] at hnewH
          omega
        have hcur : cur + (l.getD idx 0 + 1) ≤ newH := by
          have := sumRun_le l (idx + 1)
            (min (l.length - (idx + 1)) (h - 1 - (sr + 1)))
          omega
        have hcurlt : ¬ newH ≤ cur := by omega
        have hgl : (createGradient
            (readBytes srcD (sr * (w * 4)) (w * 4))
            (readBytes srcD ((sr + 1) * (w * 4)) (w * 4))
            (l.getD idx 0) w).length - 1 = l.getD idx 0 + 1 := by
          rw [createGradient_length]
          omega
        have hBL : buildLoop l srcD w h newH (fuel + 1) sr idx cur d =
            buildLoop l srcD w h newH fuel (sr + 1) (idx + 1)
              (cur + (l.getD idx 0 + 1))
              (writeRun d (List.range (l.getD idx 0 + 1))
                (fun r => (cur + r) * (w * 4)) (w * 4)
                (fun r i => ((createGradient
                  (readBytes srcD (sr * (w * 4)) (w * 4))
                  (readBytes srcD ((sr + 1) * (w * 4)) (w * 4))
                  (l.getD idx 0) w).getD r []).getD i 0)) := by
          simp only [buildLoop, if_pos hguard, if_neg hcurlt,
            copyGradRows_spec _ _ _ _ _ _ hgl hcur]
        rw [hBL]
        have hrec := ih (sr + 1) (idx + 1) (cur + (l.getD idx 0 + 1)) newH
          (writeRun d (List.range (l.getD idx 0 + 1))
            (fun r => (cur + r) * (w * 4)) (w * 4)
            (fun r i => ((createGradient
              (readBytes srcD (sr * (w * 4)) (w * 4))
              (readBytes srcD ((sr + 1) * (w * 4)) (w * 4))
              (l.getD idx 0) w).getD r []).getD i 0))
          (by omega) hnewH'
        obtain ⟨hr1, hr2, hr3, hr4⟩ := hrec
        refine ⟨hr1, ?_, ?_, ?_⟩
        · rw [hr2, writeRun_length]
        · intro j hj
          have hle : cur * (w * 4) ≤ (cur + (l.getD idx 0 + 1)) * (w * 4) :=
            Nat.mul_le_mul_right _ (by omega)
          rw [hr3 j (by omega)]
          exact rowWrite_untouched _ _ _ _ _ _ hj
        · intro hsrcLen hsrcAlpha hbelow
          have hWdlen : (writeRun d (List.range (l.getD idx 0 + 1))
              (fun r => (cur + r) * (w * 4)) (w * 4)
              (fun r i => ((createGradient
                (readBytes srcD (sr * (w * 4)) (w * 4))
                (readBytes srcD ((sr + 1) * (w * 4)) (w * 4))
                (l.getD idx 0) w).getD r []).getD i 0)).length = d.length :=
            writeRun_length _ _ _ _ _
          intro j hj hjlen hj4
          apply hr4 hsrcLen hsrcAlpha _ j hj (by rw [hWdlen]; exact hjlen) hj4
          intro j' hj' hj'len hj'4
          rcases Nat.lt_or_ge j' (cur * (w * 4)) with hlo | hhi
          · rw [rowWrite_untouched _ _ _ _ _ _ hlo]
            exact hbelow j' hlo (by rw [hWdlen] at hj'len; exact hj'len) hj'4
          · obtain ⟨r, i, hr, hi, hd⟩ :=
              row_block_decomp j' cur (l.getD idx 0 + 1) (w * 4) hhi hj'
            rw [hWdlen] at hj'len
            rw [hd, rowWrite_hit _ _ _ _ _ r i hr hi (by omega)]
            apply createGradient_row_alpha _ _ _ _ _ _ hr hi
            · have hrw : (cur + r) * (w * 4) = ((cur + r) * w) * 4 := by ring
              omega
            · rw [readBytes_getD _ _ _ _ hi]
              apply hsrcAlpha
              · rw [hsrcLen]
                have hsr1 : (sr + 1) * (w * 4) ≤ h * (w * 4) :=
                  Nat.mul_le_mul_right _ (by omega)
                have hexp : (sr + 1) * (w * 4) = sr * (w * 4) + w * 4 := by ring
                omega
              · have hrw2 : (cur + r) * (w * 4) = ((cur + r) * w) * 4 := by ring
                have hi4 : i % 4 = 3 := by omega
                have hrw : sr * (w * 4) = (sr * w) * 4 := by ring
                omega
      · have hm : min (l.length - idx) (h - 1 - sr) = 0 := by omega
        rw [hm, sumRun_zero, Nat.add_zero] at hnewH
        have heq : buildLoop l srcD w h newH (fuel + 1) sr idx cur d = (d, cur) := by
          simp only [buildLoop, if_neg hguard]
        rw [heq]
        refine ⟨hnewH.symm, rfl, fun j hj => rfl, ?_⟩
        intro _ _ hbelow j hj hjlen hj4
        rw [hnewH] at hj
        exact hbelow j hj hjlen hj4

/-- Head-copy characterization: the loop copying rows `[0, sp)` writes the
source bytes unchanged at the same positions. -/
lemma headcopy_getD (srcD d0 : List Nat) (K sp j : Nat)
    (hj : j < sp * K) (hlen : j < d0.length) :
    (writeRun d0 (List.range sp) (fun row => (0 + row) * K) K
      (fun row i => srcD.getD (row * K + i) 0)).getD j 0 = srcD.getD j 0 := by
  obtain ⟨r, i, hr, hi, hd⟩ := row_block_decomp j 0 sp K (by omega)
    (by rw [Nat.zero_add]; exact hj)
  rw [hd, rowWrite_hit d0 0 sp K _ r i hr hi (by omega)]
  have hz : (0 + r) * K = r * K := by rw [Nat.zero_add]
  congr 1
  omega

/-- The aggregate specification of `buildNewImage`: width preserved, the
returned height is the precomputed height formula (the write cursor lands
exactly there), the data size matches the returned height, rows before the
starting pixel are copied unchanged, and alpha 255 is preserved. -/
lemma buildNewImage_spec (l : List Nat) (src : PixelBuffer) (sp : Nat)
    (hsp : sp < src.height) :
    (buildNewImage l src sp).width = src.width ∧
    (buildNewImage l src sp).height =
      sp + sumRun l 0 (min l.length (src.height - sp - 1)) ∧
    (buildNewImage l src sp).data.length =
      (buildNewImage l src sp).height * (src.width * 4) ∧
    (∀ j, j < sp * (src.width * 4) →
      (buildNewImage l src sp).data.getD j 0 = src.data.getD j 0) ∧
    (src.data.length = src.height * (src.width * 4) → alphaOK src.data →
      alphaOK (buildNewImage l src sp).data) := by
  have hmin : min l.length (src.height - sp - 1) =
      min (l.length - 0) (src.height - 1 - sp) := by omega
  have hfold : (List.range sp).foldl
      (fun d row => writeBytesF d (row * (src.width * 4)) (src.width * 4)
        (fun i => src.data.getD (row * (src.width * 4) + i) 0))
      (List.replicate ((sp + ((l.take (src.height - sp - 1)).map (· + 1)).sum) *
        (src.width * 4)) 0) =
      writeRun (List.replicate
          ((sp + ((l.take (src.height - sp - 1)).map (· + 1)).sum) *
            (src.width * 4)) 0)
        (List.range sp) (fun row => (0 + row) * (src.width * 4))
        (src.width * 4)
        (fun row i => src.data.getD (row * (src.width * 4) + i) 0) := by
    have hfun : (fun (d : List Nat) row => writeBytesF d (row * (src.width * 4))
          (src.width * 4) (fun i => src.data.getD (row * (src.width * 4) + i) 0)) =
        (fun (d : List Nat) row => writeBytesF d ((0 + row) * (src.width * 4))
          (src.width * 4) (fun i => src.data.getD (row * (src.width * 4) + i) 0)) := by
      funext d row
      rw [Nat.zero_add]
    rw [hfun]
    rfl
  have hBL := buildLoop_spec l src.data src.width src.height src.height sp 0 sp
    (sp + ((l.take (src.height - sp - 1)).map (· + 1)).sum)
    (writeRun (List.replicate
        ((sp + ((l.take (src.height - sp - 1)).map (· + 1)).sum) *
          (src.width * 4)) 0)
      (List.range sp) (fun row => (0 + row) * (src.width * 4))
      (src.width * 4)
      (fun row i => src.data.getD (row * (src.width * 4) + i) 0))
    (by omega)
    (by rw [newHeight_formula, hmin])
  obtain ⟨hb1, hb2, hb3, hb4⟩ := hBL
  have hdlen : (writeRun (List.replicate
        ((sp + ((l.take (src.height - sp - 1)).map (· + 1)).sum) *
          (src.width * 4)) 0)
      (List.range sp) (fun row => (0 + row) * (src.width * 4))
      (src.width * 4)
      (fun row i => src.data.getD (row * (src.width * 4) + i) 0)).length =
      (sp + ((l.take (src.height - sp - 1)).map (· + 1)).sum) *
        (src.width * 4) := by
    rw [writeRun_length, List.length_replicate]
  have hdata : (buildNewImage l src sp).data =
      (buildLoop l src.data src.width src.height
        (sp + ((l.take (src.height - sp - 1)).map (· + 1)).sum) src.height sp 0 sp
        (writeRun (List.replicate
            ((sp + ((l.take (src.height - sp - 1)).map (· + 1)).sum) *
              (src.width * 4)) 0)
          (List.range sp) (fun row => (0 + row) * (src.width * 4))
          (src.width * 4)
          (fun row i => src.data.getD (row * (src.width * 4) + i) 0))).1 := by
    simp only [buildNewImage]
    rw [← hfold]
  have hheight : (buildNewImage l src sp).height =
      (buildLoop l src.data src.width src.height
        (sp + ((l.take (src.height - sp - 1)).map (· + 1)).sum) src.height sp 0 sp
        (writeRun (List.replicate
            ((sp + ((l.take (src.height - sp - 1)).map (· + 1)).sum) *
              (src.width * 4)) 0)
          (List.range sp) (fun row => (0 + row) * (src.width * 4))
          (src.width * 4)
          (fun row i => src.data.getD (row * (src.width * 4) + i) 0))).2 := by
    simp only [buildNewImage]
    rw [← hfold]
  have hsple : sp ≤ sp + ((l.take (src.height - sp - 1)).map (· + 1)).sum := by
    omega
  refine ⟨rfl, ?_, ?_, ?_, ?_⟩
  · rw [hheight, hb1, newHeight_formula, hmin]
  · rw [hdata, hheight, hb2, hdlen, hb1]
  · intro j hj
    rw [hdata, hb3 j hj]
    apply headcopy_getD
    · exact hj
    · rw [List.length_replicate]
      have := Nat.mul_le_mul_right (src.width * 4) hsple
      omega
  · intro hlen halpha
    intro j hj hj4
    rw [hdata] at hj ⊢
    rw [hb2, hdlen] at hj
    apply hb4 hlen halpha _ j hj _ hj4
    · intro j' hj' hj'len hj'4
      rw [headcopy_getD src.data _ _ _ _ hj'
        (by rw [hdlen] at hj'len; rw [List.length_replicate]; exact hj'len)]
      apply halpha
      · rw [hlen]
        have h1 : sp * (src.width * 4) ≤ src.height * (src.width * 4) :=
          Nat.mul_le_mul_right _ (by omega)
        omega
      · exact hj'4
    · rw [hdlen]
      exact hj

/-! ### Cropping -/

lemma crop_eq_self (s : PixelBuffer) (ow oh : Nat) (dir : Direction)
    (h : s.width = ow ∧ s.height = oh) :
    cropToOriginalSize s ow oh dir = s := by
  unfold cropToOriginalSize
  rw [if_pos h]

lemma crop_width (s : PixelBuffer) (ow oh : Nat) (dir : Direction) :
    (cropToOriginalSize s ow oh dir).width = ow := by
  unfold cropToOriginalSize
  by_cases h : s.width = ow ∧ s.height = oh
  · rw [if_pos h]
    exact h.1
  · rw [if_neg h]

lemma crop_height (s : PixelBuffer) (ow oh : Nat) (dir : Direction) :
    (cropToOriginalSize s ow oh dir).height = oh := by
  unfold cropToOriginalSize
  by_cases h : s.width = ow ∧ s.height = oh
  · rw [if_pos h]
    exact h.2
  · rw [if_neg h]

lemma crop_data_branch (s : PixelBuffer) (ow oh : Nat) (dir : Direction)
    (hne : ¬(s.width = ow ∧ s.height = oh)) :
    (cropToOriginalSize s ow oh dir).data =
      ((List.range oh).map (fun y =>
        ((List.range ow).map (fun x =>
          (List.range 4).map (fun c =>
            s.data.getD ((min (cropStartY s oh dir + y) (s.height - 1) * s.width +
              min (cropStartX s ow dir + x) (s.width - 1)) * 4 + c) 0))).flatten)).flatten := by
  simp only [cropToOriginalSize, if_neg hne]

lemma crop_row_length (s : PixelBuffer) (ow oh : Nat) (dir : Direction)
    (y : Nat) :
    (((List.range ow).map (fun x =>
      (List.range 4).map (fun c =>
        s.data.getD ((min (cropStartY s oh dir + y) (s.height - 1) * s.width +
          min (cropStartX s ow dir + x) (s.width - 1)) * 4 + c) 0))).flatten).length =
      ow * 4 :=
  flatten_map_range_length _ 4 ow (fun k _ => by rw [List.length_map, List.length_range])

lemma crop_length (s : PixelBuffer) (ow oh : Nat) (dir : Direction)
    (hs : s.data.length = s.height * (s.width * 4)) :
    (cropToOriginalSize s ow oh dir).data.length = oh * (ow * 4) := by
  by_cases h : s.width = ow ∧ s.height = oh
  · rw [crop_eq_self s ow oh dir h, hs, h.1, h.2]
  · rw [crop_data_branch s ow oh dir h]
    exact flatten_map_range_length _ (ow * 4) oh
      (fun k _ => crop_row_length s ow oh dir k)

lemma crop_getD (s : PixelBuffer) (ow oh : Nat) (dir : Direction)
    (hne : ¬(s.width = ow ∧ s.height = oh)) (y x c : Nat)
    (hy : y < oh) (hx : x < ow) (hc : c < 4) :
    (cropToOriginalSize s ow oh dir).data.getD ((y * ow + x) * 4 + c) 0 =
      s.data.getD ((min (cropStartY s oh dir + y) (s.height - 1) * s.width +
        min (cropStartX s ow dir + x) (s.width - 1)) * 4 + c) 0 := by
  rw [crop_data_branch s ow oh dir hne]
  rw [show (y * ow + x) * 4 + c = y * (ow * 4) + (x * 4 + c) by ring]
  rw [flatten_map_range_getD _ (ow * 4) oh y (x * 4 + c)
    (fun k _ => crop_row_length s ow oh dir k) hy (by omega)]
  rw [flatten_map_range_getD _ 4 ow x c
    (fun k _ => by rw [List.length_map, List.length_range]) hx hc]
  exact getD_map_range _ 4 c hc

lemma crop_alphaOK (s : PixelBuffer) (ow oh : Nat) (dir : Direction)
    (hs : s.data.length = s.height * (s.width * 4))
    (hw : 1 ≤ s.width) (hh : 1 ≤ s.height) (halpha : alphaOK s.data) :
    alphaOK (cropToOriginalSize s ow oh dir).data := by
  by_cases hne : s.width = ow ∧ s.height = oh
  · rw [crop_eq_self s ow oh dir hne]
    exact halpha
  · intro j hj hj4
    rw [crop_length s ow oh dir hs] at hj
    have hj' : j < oh * ow * 4 := by
      have : oh * (ow * 4) = oh * ow * 4 := by ring
      omega
    obtain ⟨y, x, c, hy, hx, hc, hdecomp⟩ := byte_index_decomp j ow oh hj'
    have hc3 : c = 3 := by
      have hrw : (y * ow + x) * 4 = ((y * ow + x)) * 4 := rfl
      omega
    rw [hdecomp, hc3]
    rw [crop_getD s ow oh dir hne y x 3 hy hx (by omega)]
    apply halpha
    · rw [hs]
      have hYle : min (cropStartY s oh dir + y) (s.height - 1) + 1 ≤ s.height := by
        have := Nat.min_le_right (cropStartY s oh dir + y) (s.height - 1)
        omega
      have hXle : min (cropStartX s ow dir + x) (s.width - 1) + 1 ≤ s.width := by
        have := Nat.min_le_right (cropStartX s ow dir + x) (s.width - 1)
        omega
      have h6 := Nat.mul_le_mul_right s.width hYle
      rw [Nat.add_mul, Nat.one_mul] at h6
      have hrw : s.height * (s.width * 4) = s.height * s.width * 4 := by ring
      omega
    · omega

/-! ### Orchestrator traces per direction -/

lemma stretch_down_eq (img : PixelBuffer) (r sp : Nat) (hh : 1 ≤ img.height) :
    stretchImage img ⟨r, sp, .down⟩ =
      cropToOriginalSize
        (buildNewImage (createIndexList r) img (min sp (img.height - 1)))
        img.width img.height .down := by
  simp only [stretchImage]
  rw [if_pos (by omega : min sp (img.height - 1) < img.height)]

lemma stretch_up_eq (img : PixelBuffer) (r sp : Nat) (hh : 1 ≤ img.height) :
    stretchImage img ⟨r, sp, .up⟩ =
      cropToOriginalSize
        (rotateImageData (rotateImageData
          (buildNewImage (createIndexList r)
            (rotateImageData (rotateImageData img true) true)
            (img.height - min sp (img.height - 1) - 1)) true) true)
        img.width img.height .up := by
  simp only [stretchImage, rotateImageData_height, rotateImageData_width]
  rw [if_pos (by omega : img.height - min sp (img.height - 1) - 1 < img.height)]

lemma stretch_right_eq (img : PixelBuffer) (r sp : Nat) (hw : 1 ≤ img.width) :
    stretchImage img ⟨r, sp, .right⟩ =
      cropToOriginalSize
        (rotateImageData
          (buildNewImage (createIndexList r) (rotateImageData img true)
            (img.width - min sp (img.width - 1) - 1)) false)
        img.width img.height .right := by
  simp only [stretchImage, rotateImageData_height, rotateImageData_width]
  rw [if_pos (by omega : img.width - min sp (img.width - 1) - 1 < img.width)]

lemma stretch_left_eq (img : PixelBuffer) (r sp : Nat) (hw : 1 ≤ img.width) :
    stretchImage img ⟨r, sp, .left⟩ =
      cropToOriginalSize
        (rotateImageData
          (buildNewImage (createIndexList r) (rotateImageData img false)
            (min sp (img.width - 1))) true)
        img.width img.height .left := by
  simp only [stretchImage, rotateImageData_height, rotateImageData_width]
  rw [if_pos (by omega : min sp (img.width - 1) < img.width)]

/-! ### Claims -/

/-- C1: for every input buffer and parameter triple, `stretchImage` returns
normally (the model is a total function) and the returned buffer has the
input's width and height; the source's `catch` fallback, which would return
an unmodified deep copy, is unreachable in this total model. -/
theorem C1_stretchImage_dims (img : PixelBuffer) (p : StretchParams) :
    (stretchImage img p).width = img.width ∧
    (stretchImage img p).height = img.height := by
  constructor
  · simp only [stretchImage]
    split
    · exact crop_width _ _ _ _
    · rfl
  · simp only [stretchImage]
    split
    · exact crop_height _ _ _ _
    · rfl

/-- C9: `stretchImage` is deterministic — byte-identical inputs and equal
parameter triples produce byte-identical outputs (the model is a pure
function of its arguments). -/
theorem C9_deterministic (b1 b2 : PixelBuffer) (p1 p2 : StretchParams)
    (hb : b1 = b2) (hp : p1 = p2) : stretchImage b1 p1 = stretchImage b2 p2 := by
  rw [hb, hp]

/-- Witness for C9 at a concrete buffer and parameter triple. -/
theorem C9_witness :
    stretchImage ⟨[1, 2, 3, 255], 1, 1⟩ ⟨13, 0, .down⟩ =
      stretchImage ⟨[1, 2, 3, 255], 1, 1⟩ ⟨13, 0, .down⟩ :=
  C9_deterministic ⟨[1, 2, 3, 255], 1, 1⟩ ⟨[1, 2, 3, 255], 1, 1⟩
    ⟨13, 0, .down⟩ ⟨13, 0, .down⟩ rfl rfl

lemma specScaleFactor_quarters (r : Nat) (h1 : 1 ≤ r) (h2 : r ≤ 13) :
    specScaleFactor r = ((17 - r : Nat) : ℚ) / 4 := by
  interval_cases r <;> norm_num [specScaleFactor]

lemma floor_mul_quarter (c q : Nat) :
    ⌊(c : ℚ) * ((q : ℚ) / 4)⌋₊ = c * q / 4 := by
  rw [show (c : ℚ) * ((q : ℚ) / 4) = ((c * q : ℕ) : ℚ) / ((4 : ℕ) : ℚ) by
    push_cast; ring]
  rw [Nat.floor_div_nat, Nat.floor_natCast]

lemma inverseValueDict_eq (r : Nat) (h1 : 1 ≤ r) (h2 : r ≤ 13) :
    inverseValueDict r = some (17 - r) := by
  interval_cases r <;> rfl

/-- C2: for every intensity in `[1, 13]`, `createIndexList` equals the
concatenation, in base-table order, of `⌊baseCount * factor⌋` copies of each
base value (with the factor table of the specification); the result is
non-empty, its length is the sum of the scaled counts, and
`createIndexList 13` is exactly the unscaled base expansion. -/
theorem C2_createIndexList (r : Nat) (h1 : 1 ≤ r) (h2 : r ≤ 13) :
    createIndexList r =
      (pairs.map (fun p =>
        List.replicate ⌊(p.2 : ℚ) * specScaleFactor r⌋₊ p.1)).flatten ∧
    createIndexList r ≠ [] ∧
    (createIndexList r).length =
      (pairs.map (fun p => ⌊(p.2 : ℚ) * specScaleFactor r⌋₊)).sum ∧
    createIndexList 13 = (pairs.map (fun p => List.replicate p.2 p.1)).flatten := by
  have hfs : ∀ p : Nat × Nat,
      ⌊(p.2 : ℚ) * specScaleFactor r⌋₊ = p.2 * (17 - r) / 4 := by
    intro p
    rw [specScaleFactor_quarters r h1 h2, floor_mul_quarter]
  have heq : createIndexList r =
      (pairs.map (fun p =>
        List.replicate ⌊(p.2 : ℚ) * specScaleFactor r⌋₊ p.1)).flatten := by
    simp only [hfs, createIndexList, inverseValueDict_eq r h1 h2]
  refine ⟨heq, ?_, ?_, by decide⟩
  · rw [heq]
    intro hnil
    have hlenz := congrArg List.length hnil
    simp only [List.length_flatten, List.map_map, Function.comp, hfs,
      List.length_replicate, List.length_nil] at hlenz
    have h4 : 52 ≤ 13 * (17 - r) := by omega
    have h13 : 13 ≤ 13 * (17 - r) / 4 := by
      have h5 : 52 / 4 ≤ 13 * (17 - r) / 4 := Nat.div_le_div_right h4
      omega
    simp [pairs] at hlenz
    omega
  · rw [heq]
    rw [List.length_flatten, List.map_map]
    congr 1
    congr 1
    funext p
    simp [Function.comp, List.length_replicate]

/-- Witness for C2 at intensity 7. -/
theorem C2_witness : 1 ≤ 7 ∧ 7 ≤ 13 ∧
    (createIndexList 7 =
      (pairs.map (fun p =>
        List.replicate ⌊(p.2 : ℚ) * specScaleFactor 7⌋₊ p.1)).flatten ∧
    createIndexList 7 ≠ [] ∧
    (createIndexList 7).length =
      (pairs.map (fun p => ⌊(p.2 : ℚ) * specScaleFactor 7⌋₊)).sum ∧
    createIndexList 13 = (pairs.map (fun p => List.replicate p.2 p.1)).flatten) :=
  ⟨by omega, by omega, C2_createIndexList 7 (by omega) (by omega)⟩

/-- C3: for every valid source buffer, index sequence and starting pixel in
range, `buildNewImage` preserves the width, returns exactly the precomputed
height `sp + Σ (indexList[i] + 1)` over the first
`min(len(indexList), height - sp - 1)` entries (so the write cursor reaches
precisely the precomputed height), the height is at least `sp`, and the
data array has `height * width * 4` bytes. -/
theorem C3_buildNewImage_invariants (l : List Nat) (src : PixelBuffer) (sp : Nat)
    (hlen : src.data.length = src.width * src.height * 4)
    (hsp : sp < src.height) :
    (buildNewImage l src sp).width = src.width ∧
    (buildNewImage l src sp).height =
      sp + ((List.range (min l.length (src.height - sp - 1))).map
        (fun i => l.getD i 0 + 1)).sum ∧
    sp ≤ (buildNewImage l src sp).height ∧
    (buildNewImage l src sp).data.length =
      (buildNewImage l src sp).height * src.width * 4 := by
  obtain ⟨h1, h2, h3, _, _⟩ := buildNewImage_spec l src sp hsp
  refine ⟨h1, ?_, ?_, ?_⟩
  · rw [h2, sumRun_eq_sum]
    simp only [Nat.zero_add]
  · rw [h2]
    omega
  · rw [h3]
    ring
/-- Witness for C3 on a concrete 1×3 buffer. -/
theorem C3_witness :
    (List.replicate 12 (7 : Nat)).length = 1 * 3 * 4 ∧ 1 < 3 ∧
    ((buildNewImage [2, 1] ⟨List.replicate 12 7, 1, 3⟩ 1).width = 1 ∧
    (buildNewImage [2, 1] ⟨List.replicate 12 7, 1, 3⟩ 1).height =
      1 + ((List.range (min (List.length [2, 1]) (3 - 1 - 1))).map
        (fun i => (List.getD [2, 1] i 0) + 1)).sum ∧
    1 ≤ (buildNewImage [2, 1] ⟨List.replicate 12 7, 1, 3⟩ 1).height ∧
    (buildNewImage [2, 1] ⟨List.replicate 12 7, 1, 3⟩ 1).data.length =
      (buildNewImage [2, 1] ⟨List.replicate 12 7, 1, 3⟩ 1).height * 1 * 4) :=
  ⟨by decide, by decide,
    C3_buildNewImage_invariants [2, 1] ⟨List.replicate 12 7, 1, 3⟩ 1
      (by decide) (by decide)⟩

lemma flDiv_zero (q : Nat) : flDiv 0 q = ⟨0, 0⟩ := by
  unfold flDiv
  rw [if_pos rfl]

lemma flScale_zero (k : Nat) : flScale ⟨0, 0⟩ k = ⟨0, 0⟩ := by
  unfold flScale roundMant
  norm_num

/-- Interpolating a byte between itself and itself is exact in binary64:
the step is a true zero, the product is zero, and adding zero to a byte
returns the byte, whose round is itself. -/
lemma gradientByte_self (a g k : Nat) (ha : a < 256) :
    gradientByte a a g k = a := by
  unfold gradientByte
  rw [sub_self, flDiv_zero, flScale_zero]
  have hpow : (2 : Nat) ^ 53 = 9007199254740992 := by norm_num
  have hA : flAddInt (a : Int) ⟨0, 0⟩ = ⟨(a : Int), 0⟩ := by
    unfold flAddInt roundMant
    have h0 : ((a : Int) + (0 : Int) * 2 ^ ((0 : Int)).toNat) = (a : Int) := by ring
    rw [if_pos (le_refl (0 : Int))]
    simp only [h0]
    rw [if_pos]
    rw [Int.natAbs_ofNat, hpow]
    omega
  rw [hA]
  unfold jsRound
  rw [if_pos (le_refl (0 : Int))]
  simp

/-- Counterexample to C4 as stated: at `startVal = 29`, `endVal = 0`,
`gradientSize = 13`, `gradientRow = 7` (an intensity-13 gradient block,
present in every index list), the program's binary64 evaluation yields the
double `14.499999999999998`, which `Math.round`s to `14`, while the claim's
exact-arithmetic formula gives `round(14.5) = 15`. -/
theorem C4_counterexample :
    ((createGradient [29, 29, 29, 255] [0, 0, 0, 255] 13 1).getD 7 []).getD 0 0 = 14 ∧
    (round ((29 : ℚ) + ((0 : ℚ) - 29) * 7 / ((13 : ℚ) + 1))).toNat = 15 ∧
    ((createGradient [29, 29, 29, 255] [0, 0, 0, 255] 13 1).getD 7 []).getD 0 0 ≠
      (round ((29 : ℚ) + ((0 : ℚ) - 29) * 7 / ((13 : ℚ) + 1))).toNat := by
  have h14 : ((createGradient [29, 29, 29, 255] [0, 0, 0, 255] 13 1).getD 7 []).getD 0 0
      = 14 := by decide
  have hval : (29 : ℚ) + ((0 : ℚ) - 29) * 7 / ((13 : ℚ) + 1) + 1 / 2 = ((15 : ℤ) : ℚ) := by
    norm_num
  have h15 : (round ((29 : ℚ) + ((0 : ℚ) - 29) * 7 / ((13 : ℚ) + 1))).toNat = 15 := by
    rw [round_eq, hval, Int.floor_intCast]
    rfl
  exact ⟨h14, h15, by rw [h14, h15]; decide⟩

/-- C4 (amended): `createGradient` returns `g + 2` rows; row 0 is row A
verbatim and row `g + 1` is row B verbatim; every intermediate row's R, G
and B channels equal `round(startVal + step * k)` with
`step = (endVal - startVal) / (g + 1)` evaluated in binary64 double
precision, where the division, the multiplication and the addition each
round to the nearest double — this agrees with the exact-rational
`round(A + (B - A) * k / (g + 1))` away from ties but not at them; when the
two rows are equal, every byte-valued channel interpolates to exactly
itself; the alpha byte of every intermediate row is forced to 255; and
`g = 0` yields exactly `[rowA, rowB]`. -/
theorem C4_createGradient_corrected (rowA rowB : List Nat) (g w : Nat)
    (hA : rowA.length = w * 4) (hB : rowB.length = w * 4) :
    (createGradient rowA rowB g w).length = g + 2 ∧
    (createGradient rowA rowB g w).getD 0 [] = rowA ∧
    (createGradient rowA rowB g w).getD (g + 1) [] = rowB ∧
    (∀ k, 1 ≤ k → k ≤ g → ∀ x, x < w → ∀ c, c < 3 →
      ((createGradient rowA rowB g w).getD k []).getD (x * 4 + c) 0 =
        (jsRound (flAddInt ((rowA.getD (x * 4 + c) 0 : Nat) : Int)
          (flScale (flDiv (((rowB.getD (x * 4 + c) 0 : Nat) : Int) -
            ((rowA.getD (x * 4 + c) 0 : Nat) : Int)) (g + 1)) k))).toNat) ∧
    (∀ k, 1 ≤ k → k ≤ g → ∀ x, x < w → ∀ c, c < 3 →
      rowA = rowB → rowA.getD (x * 4 + c) 0 < 256 →
      ((createGradient rowA rowB g w).getD k []).getD (x * 4 + c) 0 =
        rowA.getD (x * 4 + c) 0) ∧
    (∀ k, 1 ≤ k → k ≤ g → ∀ x, x < w →
      ((createGradient rowA rowB g w).getD k []).getD (x * 4 + 3) 0 = 255) ∧
    (g = 0 → createGradient rowA rowB g w = [rowA, rowB]) := by
  refine ⟨createGradient_length rowA rowB g w, ?_, ?_, ?_, ?_, ?_, ?_⟩
  · rw [createGradient_getD_zero, readBytes_eq_self _ _ hA]
  · rw [createGradient_getD_last, readBytes_eq_self _ _ hB]
  · intro k hk1 hk2 x hx c hc
    rw [createGradient_getD_mid _ _ _ _ _ hk1 hk2,
      gradientRowBytes_getD _ _ _ _ _ _ (by omega),
      if_neg (by omega : ¬ (x * 4 + c) % 4 = 3)]
    rfl
  · intro k hk1 hk2 x hx c hc hAB hlt
    rw [createGradient_getD_mid _ _ _ _ _ hk1 hk2,
      gradientRowBytes_getD _ _ _ _ _ _ (by omega),
      if_neg (by omega : ¬ (x * 4 + c) % 4 = 3), ← hAB]
    exact gradientByte_self _ _ _ hlt
  · intro k hk1 hk2 x hx
    rw [createGradient_getD_mid _ _ _ _ _ hk1 hk2,
      gradientRowBytes_getD _ _ _ _ _ _ (by omega),
      if_pos (by omega : (x * 4 + 3) % 4 = 3)]
  · intro hg
    subst hg
    unfold createGradient
    rw [readBytes_eq_self _ _ hA, readBytes_eq_self _ _ hB]
    rfl

/-- Witness for the amended C4 on two concrete one-pixel rows with `g = 2`. -/
theorem C4_witness :
    (List.length [10, 20, 30, 0] = 1 * 4) ∧ (List.length [50, 60, 70, 90] = 1 * 4) ∧
    ((createGradient [10, 20, 30, 0] [50, 60, 70, 90] 2 1).length = 2 + 2 ∧
    (createGradient [10, 20, 30, 0] [50, 60, 70, 90] 2 1).getD 0 [] = [10, 20, 30, 0] ∧
    (createGradient [10, 20, 30, 0] [50, 60, 70, 90] 2 1).getD (2 + 1) [] = [50, 60, 70, 90] ∧
    (∀ k, 1 ≤ k → k ≤ 2 → ∀ x, x < 1 → ∀ c, c < 3 →
      ((createGradient [10, 20, 30, 0] [50, 60, 70, 90] 2 1).getD k []).getD (x * 4 + c) 0 =
        (jsRound (flAddInt (((([10, 20, 30, 0] : List Nat).getD (x * 4 + c) 0 : Nat) : Int))
          (flScale (flDiv (((([50, 60, 70, 90] : List Nat).getD (x * 4 + c) 0 : Nat) : Int) -
            ((([10, 20, 30, 0] : List Nat).getD (x * 4 + c) 0 : Nat) : Int)) (2 + 1)) k))).toNat) ∧
    (∀ k, 1 ≤ k → k ≤ 2 → ∀ x, x < 1 → ∀ c, c < 3 →
      ([10, 20, 30, 0] : List Nat) = [50, 60, 70, 90] →
      ([10, 20, 30, 0] : List Nat).getD (x * 4 + c) 0 < 256 →
      ((createGradient [10, 20, 30, 0] [50, 60, 70, 90] 2 1).getD k []).getD (x * 4 + c) 0 =
        ([10, 20, 30, 0] : List Nat).getD (x * 4 + c) 0) ∧
    (∀ k, 1 ≤ k → k ≤ 2 → ∀ x, x < 1 →
      ((createGradient [10, 20, 30, 0] [50, 60, 70, 90] 2 1).getD k []).getD (x * 4 + 3) 0 = 255) ∧
    (2 = 0 → createGradient [10, 20, 30, 0] [50, 60, 70, 90] 2 1 =
      [[10, 20, 30, 0], [50, 60, 70, 90]])) :=
  ⟨by decide, by decide,
    C4_createGradient_corrected [10, 20, 30, 0] [50, 60, 70, 90] 2 1 (by decide) (by decide)⟩

/-- C5: rotating 90° clockwise then 90° counter-clockwise (and vice versa)
restores the original buffer byte-identically, for any width and height. -/
theorem C5_rotation_roundtrip (img : PixelBuffer)
    (hlen : img.data.length = img.width * img.height * 4) :
    rotateImageData (rotateImageData img true) false = img ∧
    rotateImageData (rotateImageData img false) true = img :=
  ⟨rotate_cw_ccw img hlen, rotate_ccw_cw img hlen⟩

/-- Witness for C5 on a concrete 2×1 buffer. -/
theorem C5_witness :
    (List.length [1, 2, 3, 4, 5, 6, 7, 8] = 2 * 1 * 4) ∧
    (rotateImageData (rotateImageData ⟨[1, 2, 3, 4, 5, 6, 7, 8], 2, 1⟩ true) false =
        ⟨[1, 2, 3, 4, 5, 6, 7, 8], 2, 1⟩ ∧
      rotateImageData (rotateImageData ⟨[1, 2, 3, 4, 5, 6, 7, 8], 2, 1⟩ false) true =
        ⟨[1, 2, 3, 4, 5, 6, 7, 8], 2, 1⟩) :=
  ⟨by decide, C5_rotation_roundtrip ⟨[1, 2, 3, 4, 5, 6, 7, 8], 2, 1⟩ (by decide)⟩

/-- C8: for the downward direction with an in-range starting pixel, the
rows before the starting offset are untouched: every byte of output rows
`[0, startingPixel)` equals the corresponding input byte. -/
theorem C8_prefix_rows_untouched (img : PixelBuffer) (p : StretchParams)
    (hdir : p.direction = .down) (hsp : p.startingPixel < img.height)
    (hlen : img.data.length = img.width * img.height * 4) :
    ∀ y, y < p.startingPixel → ∀ i, i < img.width * 4 →
      (stretchImage img p).data.getD (y * (img.width * 4) + i) 0 =
        img.data.getD (y * (img.width * 4) + i) 0 := by
  obtain ⟨r, sp, dir⟩ := p
  have hdir' : dir = Direction.down := hdir
  subst hdir'
  have hsp' : sp < img.height := hsp
  intro y hy i hi
  have hy' : y < sp := hy
  rw [stretch_down_eq img r sp (by omega)]
  have hmin : min sp (img.height - 1) = sp := by omega
  rw [hmin]
  obtain ⟨hw2, hh2, hlen2, hpref, _⟩ :=
    buildNewImage_spec (createIndexList r) img sp hsp'
  have hpos : y * (img.width * 4) + i < sp * (img.width * 4) := by
    have h6 := Nat.mul_le_mul_right (img.width * 4) (show y + 1 ≤ sp by omega)
    rw [Nat.add_mul, Nat.one_mul] at h6
    omega
  by_cases hcase : (buildNewImage (createIndexList r) img sp).width = img.width ∧
      (buildNewImage (createIndexList r) img sp).height = img.height
  · rw [crop_eq_self _ _ _ _ hcase]
    exact hpref _ hpos
  · have hx : i / 4 < img.width := by omega
    have h4 : 4 * (i / 4) + i % 4 = i := Nat.div_add_mod i 4
    have hceq : y * (img.width * 4) + i = (y * img.width + i / 4) * 4 + i % 4 := by
      have hexp : (y * img.width + i / 4) * 4 = y * (img.width * 4) + 4 * (i / 4) := by
        ring
      omega
    rw [hceq, crop_getD _ _ _ _ hcase y (i / 4) (i % 4) (by omega) hx (by omega)]
    have hSh : sp ≤ (buildNewImage (createIndexList r) img sp).height := by
      rw [hh2]
      omega
    rw [show cropStartY (buildNewImage (createIndexList r) img sp)
        img.height .down = 0 from rfl,
      show cropStartX (buildNewImage (createIndexList r) img sp)
        img.width .down = 0 from rfl]
    simp only [Nat.zero_add]
    rw [show min y ((buildNewImage (createIndexList r) img sp).height - 1) = y by
        omega,
      hw2,
      show min (i / 4) (img.width - 1) = i / 4 by omega]
    rw [← hceq]
    exact hpref _ hpos

/-- Witness for C8 on a concrete 1×2 buffer with starting pixel 1. -/
theorem C8_witness :
    (StretchParams.direction ⟨13, 1, .down⟩ = Direction.down) ∧
    (StretchParams.startingPixel ⟨13, 1, .down⟩ <
      PixelBuffer.height ⟨[1, 2, 3, 255, 9, 9, 9, 255], 1, 2⟩) ∧
    (List.length [1, 2, 3, 255, 9, 9, 9, 255] = 1 * 2 * 4) ∧
    (∀ y, y < StretchParams.startingPixel ⟨13, 1, .down⟩ → ∀ i, i < 1 * 4 →
      (stretchImage ⟨[1, 2, 3, 255, 9, 9, 9, 255], 1, 2⟩ ⟨13, 1, .down⟩).data.getD
          (y * (1 * 4) + i) 0 =
        List.getD [1, 2, 3, 255, 9, 9, 9, 255] (y * (1 * 4) + i) 0) :=
  ⟨rfl, by decide, by decide,
    C8_prefix_rows_untouched ⟨[1, 2, 3, 255, 9, 9, 9, 255], 1, 2⟩ ⟨13, 1, .down⟩
      rfl (by decide) (by decide)⟩

/-- Shared trace for the degenerate downward edge case
`startingPixel ≥ height - 1`: the stretched intermediate has `height - 1`
rows, so the crop clamps, preserving rows `[0, height-1)` and duplicating
row `height - 2` into the last output row. -/
lemma stretch_down_edge (img : PixelBuffer) (r sp : Nat) (hh : 2 ≤ img.height)
    (hsp : img.height - 1 ≤ sp) :
    (∀ y, y + 1 < img.height → ∀ i, i < img.width * 4 →
      (stretchImage img ⟨r, sp, .down⟩).data.getD (y * (img.width * 4) + i) 0 =
        img.data.getD (y * (img.width * 4) + i) 0) ∧
    (∀ i, i < img.width * 4 →
      (stretchImage img ⟨r, sp, .down⟩).data.getD
          ((img.height - 1) * (img.width * 4) + i) 0 =
        img.data.getD ((img.height - 2) * (img.width * 4) + i) 0) := by
  rw [stretch_down_eq img r sp (by omega)]
  have hmin : min sp (img.height - 1) = img.height - 1 := by omega
  rw [hmin]
  obtain ⟨hw2, hh2, hlen2, hpref, _⟩ :=
    buildNewImage_spec (createIndexList r) img (img.height - 1) (by omega)
  have hS : (buildNewImage (createIndexList r) img (img.height - 1)).height =
      img.height - 1 := by
    rw [hh2, show img.height - (img.height - 1) - 1 = 0 by omega,
      Nat.min_zero, sumRun_zero]
    omega
  have hne : ¬((buildNewImage (createIndexList r) img (img.height - 1)).width =
      img.width ∧
      (buildNewImage (createIndexList r) img (img.height - 1)).height =
        img.height) := by
    intro hcon
    rw [hS] at hcon
    omega
  constructor
  · intro y hy i hi
    have hx : i / 4 < img.width := by omega
    have h4 : 4 * (i / 4) + i % 4 = i := Nat.div_add_mod i 4
    have hceq : y * (img.width * 4) + i = (y * img.width + i / 4) * 4 + i % 4 := by
      have hexp : (y * img.width + i / 4) * 4 =
          y * (img.width * 4) + 4 * (i / 4) := by ring
      omega
    rw [hceq, crop_getD _ _ _ _ hne y (i / 4) (i % 4) (by omega) hx (by omega)]
    rw [show cropStartY (buildNewImage (createIndexList r) img (img.height - 1))
        img.height .down = 0 from rfl,
      show cropStartX (buildNewImage (createIndexList r) img (img.height - 1))
        img.width .down = 0 from rfl]
    simp only [Nat.zero_add]
    rw [hS, show min y (img.height - 1 - 1) = y by omega, hw2,
      show min (i / 4) (img.width - 1) = i / 4 by omega]
    rw [← hceq]
    apply hpref
    have h6 := Nat.mul_le_mul_right (img.width * 4)
      (show y + 1 ≤ img.height - 1 by omega)
    rw [Nat.add_mul, Nat.one_mul] at h6
    omega
  · intro i hi
    have hx : i / 4 < img.width := by omega
    have h4 : 4 * (i / 4) + i % 4 = i := Nat.div_add_mod i 4
    have hceq : (img.height - 1) * (img.width * 4) + i =
        ((img.height - 1) * img.width + i / 4) * 4 + i % 4 := by
      have hexp : ((img.height - 1) * img.width + i / 4) * 4 =
          (img.height - 1) * (img.width * 4) + 4 * (i / 4) := by ring
      omega
    rw [hceq,
      crop_getD _ _ _ _ hne (img.height - 1) (i / 4) (i % 4) (by omega) hx
        (by omega)]
    rw [show cropStartY (buildNewImage (createIndexList r) img (img.height - 1))
        img.height .down = 0 from rfl,
      show cropStartX (buildNewImage (createIndexList r) img (img.height - 1))
        img.width .down = 0 from rfl]
    simp only [Nat.zero_add]
    rw [hS, show min (img.height - 1) (img.height - 1 - 1) = img.height - 2 by
        omega,
      hw2, show min (i / 4) (img.width - 1) = i / 4 by omega]
    have hceq2 : ((img.height - 2) * img.width + i / 4) * 4 + i % 4 =
        (img.height - 2) * (img.width * 4) + i := by
      have hexp : ((img.height - 2) * img.width + i / 4) * 4 =
          (img.height - 2) * (img.width * 4) + 4 * (i / 4) := by ring
      omega
    rw [hceq2]
    apply hpref
    have h6 := Nat.mul_le_mul_right (img.width * 4)
      (show img.height - 2 + 1 ≤ img.height - 1 by omega)
    rw [Nat.add_mul, Nat.one_mul] at h6
    omega

/-- C6 counterexample: with `startingPixel = height - 1` the output is not
byte-identical to the input — the clamp duplicates row `height - 2` over the
last row, so a 1×2 image with distinct rows changes. -/
theorem C6_counterexample :
    stretchImage ⟨[0, 0, 0, 255, 9, 9, 9, 255], 1, 2⟩ ⟨13, 1, .down⟩ ≠
      ⟨[0, 0, 0, 255, 9, 9, 9, 255], 1, 2⟩ := by decide

/-- C6 (amended): for direction `down` and `startingPixel ≥ height - 1` on
an image of height at least 2, the transform preserves rows
`[0, height - 1)` byte-for-byte, and the last output row duplicates input
row `height - 2` (instead of keeping the input's own last row); so the
output equals the input only up to this duplicated last row. -/
theorem C6_degenerate_corrected (img : PixelBuffer) (p : StretchParams)
    (hdir : p.direction = .down) (hh : 2 ≤ img.height)
    (hsp : img.height - 1 ≤ p.startingPixel) :
    (∀ y, y + 1 < img.height → ∀ i, i < img.width * 4 →
      (stretchImage img p).data.getD (y * (img.width * 4) + i) 0 =
        img.data.getD (y * (img.width * 4) + i) 0) ∧
    (∀ i, i < img.width * 4 →
      (stretchImage img p).data.getD ((img.height - 1) * (img.width * 4) + i) 0 =
        img.data.getD ((img.height - 2) * (img.width * 4) + i) 0) := by
  obtain ⟨r, sp, dir⟩ := p
  have hdir' : dir = Direction.down := hdir
  subst hdir'
  exact stretch_down_edge img r sp hh hsp

/-- Witness for the amended C6 on a concrete 1×2 buffer with the starting
pixel beyond the edge. -/
theorem C6_witness :
    (StretchParams.direction ⟨13, 5, .down⟩ = Direction.down) ∧
    (2 ≤ PixelBuffer.height ⟨[0, 0, 0, 255, 9, 9, 9, 255], 1, 2⟩) ∧
    (2 - 1 ≤ StretchParams.startingPixel ⟨13, 5, .down⟩) ∧
    ((∀ y, y + 1 < 2 → ∀ i, i < 1 * 4 →
      (stretchImage ⟨[0, 0, 0, 255, 9, 9, 9, 255], 1, 2⟩ ⟨13, 5, .down⟩).data.getD
          (y * (1 * 4) + i) 0 =
        List.getD [0, 0, 0, 255, 9, 9, 9, 255] (y * (1 * 4) + i) 0) ∧
    (∀ i, i < 1 * 4 →
      (stretchImage ⟨[0, 0, 0, 255, 9, 9, 9, 255], 1, 2⟩ ⟨13, 5, .down⟩).data.getD
          ((2 - 1) * (1 * 4) + i) 0 =
        List.getD [0, 0, 0, 255, 9, 9, 9, 255] ((2 - 2) * (1 * 4) + i) 0)) :=
  ⟨rfl, by decide, by decide,
    C6_degenerate_corrected ⟨[0, 0, 0, 255, 9, 9, 9, 255], 1, 2⟩ ⟨13, 5, .down⟩
      rfl (by decide) (by decide)⟩

/-- C10: for direction `down` on an image of height at least 2 with
`startingPixel = height - 1`, the stretched intermediate has only
`height - 1` rows and the crop window clamps: output rows `[0, height - 1)`
equal the input's, and the last output row equals input row `height - 2`,
duplicated by the `min(startY + y, height - 1)` clamp. -/
theorem C10_edge_clamp_duplicates (img : PixelBuffer) (p : StretchParams)
    (hdir : p.direction = .down) (hh : 2 ≤ img.height)
    (hsp : p.startingPixel = img.height - 1) :
    (∀ y, y + 1 < img.height → ∀ i, i < img.width * 4 →
      (stretchImage img p).data.getD (y * (img.width * 4) + i) 0 =
        img.data.getD (y * (img.width * 4) + i) 0) ∧
    (∀ i, i < img.width * 4 →
      (stretchImage img p).data.getD ((img.height - 1) * (img.width * 4) + i) 0 =
        img.data.getD ((img.height - 2) * (img.width * 4) + i) 0) := by
  obtain ⟨r, sp, dir⟩ := p
  have hdir' : dir = Direction.down := hdir
  subst hdir'
  have hsp' : sp = img.height - 1 := hsp
  exact stretch_down_edge img r sp hh (by omega)

/-- Witness for C10 on a concrete 1×3 buffer with starting pixel 2. -/
theorem C10_witness :
    (StretchParams.direction ⟨13, 2, .down⟩ = Direction.down) ∧
    (2 ≤ PixelBuffer.height ⟨[1, 1, 1, 255, 2, 2, 2, 255, 3, 3, 3, 255], 1, 3⟩) ∧
    (StretchParams.startingPixel ⟨13, 2, .down⟩ = 3 - 1) ∧
    ((∀ y, y + 1 < 3 → ∀ i, i < 1 * 4 →
      (stretchImage ⟨[1, 1, 1, 255, 2, 2, 2, 255, 3, 3, 3, 255], 1, 3⟩
          ⟨13, 2, .down⟩).data.getD (y * (1 * 4) + i) 0 =
        List.getD [1, 1, 1, 255, 2, 2, 2, 255, 3, 3, 3, 255] (y * (1 * 4) + i) 0) ∧
    (∀ i, i < 1 * 4 →
      (stretchImage ⟨[1, 1, 1, 255, 2, 2, 2, 255, 3, 3, 3, 255], 1, 3⟩
          ⟨13, 2, .down⟩).data.getD ((3 - 1) * (1 * 4) + i) 0 =
        List.getD [1, 1, 1, 255, 2, 2, 2, 255, 3, 3, 3, 255] ((3 - 2) * (1 * 4) + i) 0)) :=
  ⟨rfl, by decide, by decide,
    C10_edge_clamp_duplicates ⟨[1, 1, 1, 255, 2, 2, 2, 255, 3, 3, 3, 255], 1, 3⟩
      ⟨13, 2, .down⟩ rfl (by decide) (by decide)⟩

lemma createIndexList_length_pos (r : Nat) (h1 : 1 ≤ r) (h2 : r ≤ 13) :
    1 ≤ (createIndexList r).length := by
  interval_cases r <;> decide

lemma buildNewImage_height_pos (l : List Nat) (src : PixelBuffer) (sp : Nat)
    (hsp : sp < src.height) (hl : 1 ≤ l.length) (hh2 : 2 ≤ src.height) :
    1 ≤ (buildNewImage l src sp).height := by
  obtain ⟨_, h2, _, _, _⟩ := buildNewImage_spec l src sp hsp
  rw [h2]
  rcases Nat.eq_zero_or_pos sp with h0 | hpos
  · subst h0
    have hm : 1 ≤ min l.length (src.height - 0 - 1) := by omega
    have := sumRun_le l 0 (min l.length (src.height - 0 - 1))
    omega
  · omega

/-- C7 counterexample: a fully opaque 1×1 image is mapped, with direction
`down`, to a fully transparent buffer — the stretched intermediate is empty
and the crop reads out of range, storing 0 even in the alpha channel. -/
theorem C7_counterexample :
    alphaOK [5, 5, 5, 255] ∧
    (stretchImage ⟨[5, 5, 5, 255], 1, 1⟩ ⟨13, 0, .down⟩).data = [0, 0, 0, 0] ∧
    ¬ alphaOK (stretchImage ⟨[5, 5, 5, 255], 1, 1⟩ ⟨13, 0, .down⟩).data := by
  refine ⟨by decide, by decide, by decide⟩

/-- C7 (amended): with intensity in `[1, 13]`, positive dimensions, and the
stretch-axis dimension (height for up/down, width for left/right) at least
2, every pixel written by the pipeline has alpha 255, so an all-opaque
input yields an all-opaque output.  (For a stretch-axis dimension of 1 the
intermediate buffer is empty and the output is transparent black, as the
counterexample shows.) -/
theorem C7_alpha_corrected (img : PixelBuffer) (p : StretchParams)
    (hr1 : 1 ≤ p.stretchRate) (hr2 : p.stretchRate ≤ 13)
    (hlen : img.data.length = img.width * img.height * 4)
    (hw : 1 ≤ img.width) (hh : 1 ≤ img.height)
    (hud : p.direction = .up ∨ p.direction = .down → 2 ≤ img.height)
    (hlr : p.direction = .left ∨ p.direction = .right → 2 ≤ img.width)
    (halpha : alphaOK img.data) :
    alphaOK (stretchImage img p).data := by
  obtain ⟨r, sp, dir⟩ := p
  have hr1' : 1 ≤ r := hr1
  have hr2' : r ≤ 13 := hr2
  cases dir with
  | down =>
      have h2h : 2 ≤ img.height := hud (Or.inr rfl)
      rw [stretch_down_eq img r sp (by omega)]
      have hwsp : min sp (img.height - 1) < img.height := by omega
      obtain ⟨hSw, hSh, hSlen, _, hSalpha⟩ :=
        buildNewImage_spec (createIndexList r) img (min sp (img.height - 1)) hwsp
      apply crop_alphaOK
      · exact hSlen
      · exact hw
      · exact buildNewImage_height_pos _ _ _ hwsp
          (createIndexList_length_pos r hr1' hr2') h2h
      · exact hSalpha (by rw [hlen]; ring) halpha
  | up =>
      have h2h : 2 ≤ img.height := hud (Or.inl rfl)
      rw [stretch_up_eq img r sp (by omega)]
      have hα1 : alphaOK (rotateImageData img true).data :=
        rotate_alphaOK img true hlen halpha
      have hlen1 : (rotateImageData img true).data.length =
          (rotateImageData img true).width * (rotateImageData img true).height * 4 := by
        simp only [rotateImageData_length, rotateImageData_width,
          rotateImageData_height]
      have hα2 : alphaOK (rotateImageData (rotateImageData img true) true).data :=
        rotate_alphaOK _ true hlen1 hα1
      have hlen2 : (rotateImageData (rotateImageData img true) true).data.length =
          (rotateImageData (rotateImageData img true) true).height *
            ((rotateImageData (rotateImageData img true) true).width * 4) := by
        simp only [rotateImageData_length, rotateImageData_width,
          rotateImageData_height]
        ring
      have hwsp : img.height - min sp (img.height - 1) - 1 <
          (rotateImageData (rotateImageData img true) true).height := by
        show img.height - min sp (img.height - 1) - 1 < img.height
        omega
      obtain ⟨hSw, hSh, hSlen, _, hSalpha⟩ :=
        buildNewImage_spec (createIndexList r)
          (rotateImageData (rotateImageData img true) true)
          (img.height - min sp (img.height - 1) - 1) hwsp
      have hαS := hSalpha hlen2 hα2
      have hSpos := buildNewImage_height_pos (createIndexList r)
        (rotateImageData (rotateImageData img true) true)
        (img.height - min sp (img.height - 1) - 1) hwsp
        (createIndexList_length_pos r hr1' hr2') h2h
      have hSlen' : (buildNewImage (createIndexList r)
          (rotateImageData (rotateImageData img true) true)
          (img.height - min sp (img.height - 1) - 1)).data.length =
          (buildNewImage (createIndexList r)
            (rotateImageData (rotateImageData img true) true)
            (img.height - min sp (img.height - 1) - 1)).width *
          (buildNewImage (createIndexList r)
            (rotateImageData (rotateImageData img true) true)
            (img.height - min sp (img.height - 1) - 1)).height * 4 := by
        rw [hSlen, hSw]
        show (buildNewImage _ _ _).height * (img.width * 4) =
          img.width * (buildNewImage _ _ _).height * 4
        ring
      have hα3 := rotate_alphaOK _ true hSlen' hαS
      have hlen3 : (rotateImageData (buildNewImage (createIndexList r)
          (rotateImageData (rotateImageData img true) true)
          (img.height - min sp (img.height - 1) - 1)) true).data.length =
          (rotateImageData (buildNewImage (createIndexList r)
            (rotateImageData (rotateImageData img true) true)
            (img.height - min sp (img.height - 1) - 1)) true).width *
          (rotateImageData (buildNewImage (createIndexList r)
            (rotateImageData (rotateImageData img true) true)
            (img.height - min sp (img.height - 1) - 1)) true).height * 4 := by
        simp only [rotateImageData_length, rotateImageData_width,
          rotateImageData_height]
      have hα4 := rotate_alphaOK _ true hlen3 hα3
      apply crop_alphaOK
      · simp only [rotateImageData_length, rotateImageData_width,
          rotateImageData_height]
        ring
      · exact hw
      · exact hSpos
      · exact hα4
  | right =>
      have h2w : 2 ≤ img.width := hlr (Or.inr rfl)
      rw [stretch_right_eq img r sp (by omega)]
      have hα1 : alphaOK (rotateImageData img true).data :=
        rotate_alphaOK img true hlen halpha
      have hlen1 : (rotateImageData img true).data.length =
          (rotateImageData img true).height *
            ((rotateImageData img true).width * 4) := by
        simp only [rotateImageData_length, rotateImageData_width,
          rotateImageData_height]
        ring
      have hwsp : img.width - min sp (img.width - 1) - 1 <
          (rotateImageData img true).height := by
        show img.width - min sp (img.width - 1) - 1 < img.width
        omega
      obtain ⟨hSw, hSh, hSlen, _, hSalpha⟩ :=
        buildNewImage_spec (createIndexList r) (rotateImageData img true)
          (img.width - min sp (img.width - 1) - 1) hwsp
      have hαS := hSalpha hlen1 hα1
      have hSpos := buildNewImage_height_pos (createIndexList r)
        (rotateImageData img true) (img.width - min sp (img.width - 1) - 1) hwsp
        (createIndexList_length_pos r hr1' hr2') h2w
      have hSlen' : (buildNewImage (createIndexList r) (rotateImageData img true)
          (img.width - min sp (img.width - 1) - 1)).data.length =
          (buildNewImage (createIndexList r) (rotateImageData img true)
            (img.width - min sp (img.width - 1) - 1)).width *
          (buildNewImage (createIndexList r) (rotateImageData img true)
            (img.width - min sp (img.width - 1) - 1)).height * 4 := by
        rw [hSlen, hSw]
        show (buildNewImage _ _ _).height * (img.height * 4) =
          img.height * (buildNewImage _ _ _).height * 4
        ring
      have hα3 := rotate_alphaOK _ false hSlen' hαS
      apply crop_alphaOK
      · simp only [rotateImageData_length, rotateImageData_width,
          rotateImageData_height]
        ring
      · exact hSpos
      · exact hh
      · exact hα3
  | left =>
      have h2w : 2 ≤ img.width := hlr (Or.inl rfl)
      rw [stretch_left_eq img r sp (by omega)]
      have hα1 : alphaOK (rotateImageData img false).data :=
        rotate_alphaOK img false hlen halpha
      have hlen1 : (rotateImageData img false).data.length =
          (rotateImageData img false).height *
            ((rotateImageData img false).width * 4) := by
        simp only [rotateImageData_length, rotateImageData_width,
          rotateImageData_height]
        ring
      have hwsp : min sp (img.width - 1) < (rotateImageData img false).height := by
        show min sp (img.width - 1) < img.width
        omega
      obtain ⟨hSw, hSh, hSlen, _, hSalpha⟩ :=
        buildNewImage_spec (createIndexList r) (rotateImageData img false)
          (min sp (img.width - 1)) hwsp
      have hαS := hSalpha hlen1 hα1
      have hSpos := buildNewImage_height_pos (createIndexList r)
        (rotateImageData img false) (min sp (img.width - 1)) hwsp
        (createIndexList_length_pos r hr1' hr2') h2w
      have hSlen' : (buildNewImage (createIndexList r) (rotateImageData img false)
          (min sp (img.width - 1))).data.length =
          (buildNewImage (createIndexList r) (rotateImageData img false)
            (min sp (img.width - 1))).width *
          (buildNewImage (createIndexList r) (rotateImageData img false)
            (min sp (img.width - 1))).height * 4 := by
        rw [hSlen, hSw]
        show (buildNewImage _ _ _).height * (img.height * 4) =
          img.height * (buildNewImage _ _ _).height * 4
        ring
      have hα3 := rotate_alphaOK _ true hSlen' hαS
      apply crop_alphaOK
      · simp only [rotateImageData_length, rotateImageData_width,
          rotateImageData_height]
        ring
      · exact hSpos
      · exact hh
      · exact hα3

/-- Witness for the amended C7 on a concrete opaque 1×2 buffer. -/
theorem C7_witness :
    1 ≤ 13 ∧ (13 : Nat) ≤ 13 ∧
    (List.length [1, 2, 3, 255, 4, 5, 6, 255] = 1 * 2 * 4) ∧
    alphaOK [1, 2, 3, 255, 4, 5, 6, 255] ∧
    alphaOK (stretchImage ⟨[1, 2, 3, 255, 4, 5, 6, 255], 1, 2⟩ ⟨13, 0, .down⟩).data :=
  ⟨by decide, by decide, by decide, by decide,
    C7_alpha_corrected ⟨[1, 2, 3, 255, 4, 5, 6, 255], 1, 2⟩ ⟨13, 0, .down⟩
      (by decide) (by decide) (by decide) (by decide) (by decide)
      (by decide) (by decide) (by decide)⟩
